import Mathlib

/-!
Verification development for the cakedefi-kryptosekken converter.

This file gives a shallow embedding, in Lean 4, of the core of the
repository: the operation classifier (`src/operation_mapper.py`), the
transaction grouper and group converter (`src/transaction_grouper.py`),
the currency-rate lookup (`src/currency_converter.py`), the multi-year
balance ledger (`src/balance_tracker.py`), the persisted-state
round-trip, and the negative-balance check of
`src/kryptosekken_validator.py`.  Python `Decimal` values are embedded
as rationals (`ℚ`, exact arithmetic, as `Decimal` is exact for the
operations used here); `Decimal.quantize(Decimal("0.01"))` is embedded
as round-half-to-even at two fractional digits; Python `datetime` is
embedded as a wall-clock second count paired with an optional UTC
offset; Python dictionaries (which preserve insertion order) are
embedded as association lists; a Python function that can raise is
embedded with an `Option` result.  Theorems about these definitions
settle the behavioural claims stated in their doc comments.
-/

/-! ## Date and time

Python `datetime` objects carry a wall-clock reading and an optional
timezone.  `wall` is the wall-clock time in seconds since the epoch;
`tzOffset` is the UTC offset in seconds (`none` for a naive datetime).
`instant` is the UTC instant: `_normalize_datetime` in the source
treats a naive datetime as UTC (keeping the wall clock) and converts an
aware one to UTC (keeping the instant), so both cases normalize to
`wall - offset` with a naive offset read as `0`.
-/

structure DateTime where
  wall : Int
  tzOffset : Option Int := none
deriving DecidableEq, Repr

/-- The UTC instant of a datetime; `_normalize_datetime` from the source. -/
def DateTime.instant (d : DateTime) : Int :=
  d.wall - (d.tzOffset.getD 0)

/-- Python `datetime.date()`: the wall-clock day (days since the epoch). -/
def DateTime.day (d : DateTime) : Int :=
  Int.fdiv d.wall 86400

/-- Python `date.weekday()`: Monday is `0`.  The epoch day (1970-01-01)
was a Thursday, hence the shift by `3`. -/
def dayWeekday (day : Int) : Int :=
  Int.emod (day + 3) 7

/-- The Monday that starts the calendar week of `day`
(`group_date - timedelta(days=group_date.weekday())` in the source). -/
def dayMonday (day : Int) : Int :=
  day - dayWeekday day

/-! ## Association lists

Python `dict` / `defaultdict` preserve insertion order; they are
embedded as association lists whose key order is insertion order.
-/

/-- Lookup in an association list (first entry with the given key). -/
def alGet {K V : Type} [DecidableEq K] (m : List (K × V)) (k : K) : Option V :=
  (m.find? (fun e => e.1 = k)).map (fun e => e.2)

/-- Key membership in an association list. -/
def alHasKey {K V : Type} [DecidableEq K] (m : List (K × V)) (k : K) : Bool :=
  m.any (fun e => e.1 = k)

/-- `defaultdict(list)`: append `v` to the list at key `k`, creating the
key at the end (insertion order) if absent. -/
def alAppend {K V : Type} [DecidableEq K] (m : List (K × List V)) (k : K) (v : V) :
    List (K × List V) :=
  match m with
  | [] => [(k, [v])]
  | (k', vs) :: rest =>
      if k' = k then (k', vs ++ [v]) :: rest else (k', vs) :: alAppend rest k v

/-- `defaultdict(Decimal)`: add `a` to the value at key `k`, creating the
key (with prior value `0`) at the end if absent. -/
def alAdd {K : Type} [DecidableEq K] (m : List (K × ℚ)) (k : K) (a : ℚ) :
    List (K × ℚ) :=
  match m with
  | [] => [(k, a)]
  | (k', v) :: rest =>
      if k' = k then (k', v + a) :: rest else (k', v) :: alAdd rest k a

/-- `dict.pop(k, None)`: remove the entry with key `k` if present. -/
def alPop {K V : Type} [DecidableEq K] (m : List (K × V)) (k : K) : List (K × V) :=
  m.filter (fun e => ¬ e.1 = k)

/-- `dict.get(k, default)` with default `0`, for Decimal-valued dicts. -/
def alGetD {K : Type} [DecidableEq K] (m : List (K × ℚ)) (k : K) : ℚ :=
  (alGet m k).getD 0

/-- Python truthiness of an optional string: `None` and the empty string
are falsy.  Returns the string exactly when it is truthy. -/
def optStr (o : Option String) : Option String :=
  o.bind (fun s => if s = "" then none else some s)

/-- Python `s.startswith(pat)`, stated over character lists (which Lean
can evaluate, unlike `String.startsWith`). -/
def strStartsWith (s pat : String) : Bool :=
  List.isPrefixOf pat.data s.data

/-- Python substring containment `pat in s`, over character lists. -/
def listContainsSub (pat : List Char) : List Char → Bool
  | [] => pat.isEmpty
  | c :: rest => List.isPrefixOf pat (c :: rest) || listContainsSub pat rest

/-- Python substring test `pat in s`. -/
def containsStr (s pat : String) : Bool :=
  listContainsSub pat.data s.data

/-! ## Constants (`src/constants.py`) -/

/-- `NEGLIGIBLE_AMOUNT = Decimal("1e-8")`. -/
def NEGLIGIBLE_AMOUNT : ℚ := 1 / 100000000

/-- `BALANCE_TOLERANCE = Decimal("0.000001")`. -/
def BALANCE_TOLERANCE : ℚ := 1 / 1000000

/-- `LOOKUP_RANGE_DAYS = 14`. -/
def LOOKUP_RANGE_DAYS : Nat := 14

/-- `FALLBACK_USD_NOK_RATE = Decimal("10.0")`. -/
def FALLBACK_USD_NOK_RATE : ℚ := 10

/-! ## Operation classifier (`src/operation_mapper.py`) -/

/-- `KryptosekkenTransactionType`: the closed vocabulary of canonical
transaction categories. -/
inductive KryptosekkenTransactionType where
  | HANDEL
  | ERVERV
  | MINING
  | INNTEKT
  | TAP
  | FORBRUK
  | RENTEINNTEKT
  | OVERFORING_INN
  | OVERFORING_UT
  | GAVE_INN
  | GAVE_UT
  | TAP_UTEN_FRADRAG
  | FORVALTNINGSKOSTNAD
deriving DecidableEq, Repr

/-- The `.value` string of each transaction type. -/
def KryptosekkenTransactionType.value : KryptosekkenTransactionType → String
  | .HANDEL => "Handel"
  | .ERVERV => "Erverv"
  | .MINING => "Mining"
  | .INNTEKT => "Inntekt"
  | .TAP => "Tap"
  | .FORBRUK => "Forbruk"
  | .RENTEINNTEKT => "Renteinntekt"
  | .OVERFORING_INN => "Overføring-Inn"
  | .OVERFORING_UT => "Overføring-Ut"
  | .GAVE_INN => "Gave-Inn"
  | .GAVE_UT => "Gave-Ut"
  | .TAP_UTEN_FRADRAG => "Tap-uten-fradrag"
  | .FORVALTNINGSKOSTNAD => "Forvaltningskostnad"

/-- `OperationMapper.OPERATION_MAPPING`: the static operation table. -/
def OPERATION_MAPPING (operation : String) : Option KryptosekkenTransactionType :=
  if operation = "Staking reward" then some .INNTEKT
  else if operation = "Freezer staking bonus" then some .INNTEKT
  else if operation = "5 years freezer reward" then some .INNTEKT
  else if operation = "Freezer liquidity mining bonus" then some .INNTEKT
  else if operation = "Earn reward" then some .INNTEKT
  else if operation = "YieldVault reward" then some .INNTEKT
  else if operation = "Referral reward" then some .INNTEKT
  else if operation = "Lending reward" then some .INNTEKT
  else if operation = "Promotion bonus" then some .INNTEKT
  else if operation = "Rewards from DeFiChain voting" then some .INNTEKT
  else if operation = "Entry staking wallet" then some .INNTEKT
  else if operation = "Entry staking wallet: Signup bonus" then some .INNTEKT
  else if operation = "Entry staking wallet: Referral signup bonus" then some .INNTEKT
  else if operation = "Entry staking wallet: Promotion bonus" then some .INNTEKT
  else if operation = "Deposit" then some .ERVERV
  else if operation = "Withdrawal" then some .OVERFORING_UT
  else if operation = "Exit staking wallet" then some .OVERFORING_INN
  else if operation = "Exited Earn" then some .HANDEL
  else if operation = "Exited YieldVault" then some .OVERFORING_INN
  else if operation = "Adjusted Earn entry" then some .OVERFORING_INN
  else if operation = "Removed liquidity" then some .HANDEL
  else if operation = "Address creation fee" then some .FORVALTNINGSKOSTNAD
  else if operation = "Withdrawal fee" then some .FORVALTNINGSKOSTNAD
  else if operation = "Added liquidity" then some .HANDEL
  else if operation = "Entered YieldVault" then some .OVERFORING_UT
  else if operation = "Entered Earn" then some .HANDEL
  else if operation = "Withdrew for swap" then some .OVERFORING_UT
  else if operation = "Paid swap fee" then some .FORVALTNINGSKOSTNAD
  else if operation = "Converted ETH Staking Shares to csETH" then some .INNTEKT
  else if operation = "Buy token" then some .INNTEKT
  else none

/-- Lookup in the static table, falling through to the dynamic prefix
families (the tail of `OperationMapper.get_transaction_type`). -/
def staticOrDynamic (operation : String) : Option KryptosekkenTransactionType :=
  match OPERATION_MAPPING operation with
  | some t => some t
  | none =>
      if strStartsWith operation "Add liquidity " ∨ strStartsWith operation "Remove liquidity " then
        some .HANDEL
      else if strStartsWith operation "Liquidity mining reward " then
        some .INNTEKT
      else
        none

/-- `OperationMapper.get_transaction_type`: the "Entry staking wallet"
sign check comes first (when an amount is supplied), then the static
table, then the dynamic prefix families; an unrecognized operation
raises `ValueError`, embedded as `none`. -/
def get_transaction_type (operation : String) (amount : Option ℚ) :
    Option KryptosekkenTransactionType :=
  match amount with
  | some a =>
      if operation = "Entry staking wallet" then
        if a < 0 then some .OVERFORING_UT else some .INNTEKT
      else
        staticOrDynamic operation
  | none => staticOrDynamic operation

/-- `OperationMapper.is_income_operation`. -/
def is_income_operation (operation : String) (amount : Option ℚ) : Bool :=
  get_transaction_type operation amount = some .INNTEKT

/-- `OperationMapper.should_skip_transaction`: skip negative
"Entry staking wallet" events (internal movements into staking). -/
def should_skip_transaction (operation : String) (amount : Option ℚ) : Bool :=
  operation = "Entry staking wallet" &&
    match amount with
    | some a => decide (a < 0)
    | none => false

/-- `OperationMapper.requires_grouping`. -/
def requires_grouping (operation : String) : Bool :=
  operation ∈ ["Withdrew for swap", "Paid swap fee", "Deposit",
    "Added liquidity", "Removed liquidity",
    "Converted ETH Staking Shares to csETH"] ∨
  strStartsWith operation "Add liquidity " ∨ strStartsWith operation "Remove liquidity "

/-! ## Data model (`src/models.py`) -/

/-- `CakeTransaction`: one raw CakeDeFi ledger line.  `original_index`
is assigned by the grouper from the input position (`none` until then,
defaulted to `0` in this embedding since it is only read after
assignment). -/
structure CakeTransaction where
  date : DateTime
  operation : String
  amount : ℚ
  coin_asset : String
  fiat_value : ℚ
  fiat_currency : String
  transaction_id : Option String := none
  withdrawal_address : Option String := none
  reference : Option String := none
  related_reference_id : Option String := none
  original_index : Nat := 0
deriving DecidableEq, Repr

/-- The free-text notes built by the group converter.  The source
builds formatted strings; each f-string template is embedded as one
constructor carrying its interpolated values (so the NOK-value
annotations remain inspectable). -/
inductive Note where
  /-- `f"Swap from {n} txs"` -/
  | swapFromTxs (n : Nat)
  /-- `f"{simple_op} (NOK value: {nok:.2f})"` for the conversion-income swap branch -/
  | conversionIncome (simpleOp : String) (nok : ℚ)
  /-- `f"Add liquidity (LP token NOK value: {nok:.2f})"` -/
  | addLiquidity (nok : ℚ)
  /-- `f"Received LP token (incomplete - assets provided separately) (NOK value: {nok:.2f})"` -/
  | receivedLpIncomplete (nok : ℚ)
  /-- `f"Remove liquidity (LP token NOK value: {nok:.2f})"` -/
  | removeLiquidity (nok : ℚ)
  /-- `f"{timeframe} {coin} rewards {n} txs (NOK value: {nok:.2f})"` -/
  | rewards (timeframe : String) (coin : String) (n : Nat) (nok : ℚ)
  /-- `f"{simple_note} (NOK value: {nok:.2f})"` -/
  | simpleWithNok (simpleNote : String) (nok : ℚ)
  /-- a bare `simple_note` -/
  | simple (simpleNote : String)
  /-- `f"{simple_note} (incomplete DeFi op)"` -/
  | incompleteDefi (simpleNote : String)
deriving DecidableEq, Repr

/-- `KryptosekkenTransaction`: one canonical output transaction. -/
structure KryptosekkenTransaction where
  tidspunkt : Option DateTime
  type : String
  inn : Option ℚ
  inn_valuta : Option String
  ut : Option ℚ
  ut_valuta : Option String
  gebyr : Option ℚ
  gebyr_valuta : Option String
  marked : Option String
  notat : Option Note
  row_num : Option Nat := none
deriving DecidableEq, Repr

/-! ## Currency converter (`src/currency_converter.py`)

The loaded `_rate_cache` (a date-indexed dictionary of `Decimal`
rates) is embedded as a function from days to optional rationals.
-/

/-- The loaded rate cache: `some r` when a rate is on record for the day. -/
def RateTable : Type := Int → Option ℚ

/-- Round a rational to an integer, half to even: the rounding mode of
`Decimal.quantize` under the default context (`ROUND_HALF_EVEN`). -/
def roundHalfEven (y : ℚ) : ℤ :=
  let f := ⌊y⌋
  let r := y - (f : ℚ)
  if r < 1 / 2 then f
  else if 1 / 2 < r then f + 1
  else if f % 2 = 0 then f else f + 1

/-- `amount.quantize(NOK_PRECISION)`: round to two fractional digits,
half to even. -/
def quantizeNok (x : ℚ) : ℚ :=
  (roundHalfEven (x * 100) : ℚ) / 100

/-- One direction of the nearby-date search: check the days
`d + step, d + 2*step, ...` in order (up to `fuel` of them) and return
the first rate found.  With `step = -1` this is the source's backward
loop `for days_back in range(1, LOOKUP_RANGE_DAYS + 1)`, with
`step = 1` the forward loop. -/
def searchRate (rates : RateTable) (d step : Int) : Nat → Option ℚ
  | 0 => none
  | Nat.succ fuel =>
      match rates (d + step) with
      | some r => some r
      | none => searchRate rates (d + step) step fuel

/-- `CurrencyConverter._find_rate_for_date`: exact day first, then up
to 14 days backward, then up to 14 days forward. -/
def find_rate_for_date (rates : RateTable) (d : Int) : Option ℚ :=
  match rates d with
  | some r => some r
  | none =>
      match searchRate rates d (-1) LOOKUP_RANGE_DAYS with
      | some r => some r
      | none => searchRate rates d 1 LOOKUP_RANGE_DAYS

/-- `CurrencyConverter.get_usd_to_nok_rate`: the found rate, else the
fixed fallback constant. -/
def get_usd_to_nok_rate (rates : RateTable) (transaction_date : DateTime) : ℚ :=
  (find_rate_for_date rates transaction_date.day).getD FALLBACK_USD_NOK_RATE

/-- `CurrencyConverter.convert_usd_to_nok`: zero short-circuits to zero
without consulting the rate table; otherwise the product with the
looked-up rate, quantized to two fractional digits. -/
def convert_usd_to_nok (rates : RateTable) (usd_amount : ℚ)
    (transaction_date : DateTime) : ℚ :=
  if usd_amount = 0 then 0
  else quantizeNok (usd_amount * get_usd_to_nok_rate rates transaction_date)

/-! ## Multi-year balance ledger (`src/balance_tracker.py`)

The tracker's `balance_history` (year → currency → Decimal) is
embedded as a nested association list.  JSON (de)serialization maps
years and amounts through `str`/`int`/`Decimal`, which round-trip
losslessly, so the persisted form is embedded with the same types.
-/

/-- One recorded insufficient-funds problem entry
(the dictionary appended to `problematic_txs` in
`process_and_validate_year`). -/
structure ProblemTx where
  row : Option Nat
  currency : String
  attempted : ℚ
  available : ℚ
  deficit : ℚ
  txType : String
  desc : String
deriving DecidableEq, Repr

/-- `BalanceTracker._is_negligible`. -/
def is_negligible (amount : ℚ) : Bool :=
  |amount| < NEGLIGIBLE_AMOUNT

/-- One balance delta: currency, amount, is-outflow flag, description. -/
structure Delta where
  currency : String
  amount : ℚ
  isOutflow : Bool
  desc : String
deriving DecidableEq, Repr

/-- A delta for one (amount, currency) field pair of a transaction.
The source guards each pair with Python truthiness
(`if (amount := get_field(..)) and (currency := get_field(..))`), so a
missing or zero amount and a missing or empty currency both suppress
the delta. -/
def fieldDelta (amount : Option ℚ) (currency : Option String)
    (isOutflow : Bool) (desc : String) : List Delta :=
  match amount, currency with
  | some a, some c =>
      if a ≠ 0 ∧ c ≠ "" then [⟨c, a, isOutflow, desc⟩] else []
  | _, _ => []

/-- `BalanceTracker._get_transaction_deltas`: outflows (`ut`, then
`gebyr`) are yielded before the inflow (`inn`). -/
def get_transaction_deltas (tx : KryptosekkenTransaction) : List Delta :=
  fieldDelta tx.ut tx.ut_valuta true "outflow" ++
  fieldDelta tx.gebyr tx.gebyr_valuta true "fee" ++
  fieldDelta tx.inn tx.inn_valuta false "inflow"

/-- The running state while replaying a year: the per-currency running
balances and the problem entries recorded so far. -/
structure YearState where
  balances : List (String × ℚ)
  problems : List ProblemTx
deriving DecidableEq, Repr

/-- Apply one delta of transaction `tx` to the running state: an
outflow that exceeds the running balance records one problem entry
(attempted, available, deficit) and the debit is applied regardless;
an inflow credits. -/
def applyDelta (tx : KryptosekkenTransaction) (st : YearState) (d : Delta) :
    YearState :=
  if d.isOutflow then
    let available := alGetD st.balances d.currency
    let problems :=
      if available < d.amount then
        st.problems ++
          [⟨tx.row_num, d.currency, d.amount, available, d.amount - available,
            tx.type, d.desc⟩]
      else st.problems
    ⟨alAdd st.balances d.currency (-d.amount), problems⟩
  else
    ⟨alAdd st.balances d.currency d.amount, st.problems⟩

/-- Replay one transaction: its deltas in order, outflows first. -/
def applyTx (st : YearState) (tx : KryptosekkenTransaction) : YearState :=
  (get_transaction_deltas tx).foldl (applyDelta tx) st

/-- The year-validation report returned by `process_and_validate_year`
(the `errors`/`info` strings are summaries derived from
`problematic_transactions`: `errors` is nonempty exactly when problem
entries exist, so `valid = not errors` is `problems.isEmpty`). -/
structure YearReport where
  valid : Bool
  starting_balances : List (String × ℚ)
  ending_balances : List (String × ℚ)
  problematic_transactions : List ProblemTx
deriving DecidableEq, Repr

/-- `BalanceTracker.get_starting_balances`: the previous year's ending
balances, or empty. -/
def get_starting_balances (history : List (Int × List (String × ℚ)))
    (year : Int) : List (String × ℚ) :=
  (alGet history (year - 1)).getD []

/-- `BalanceTracker.process_and_validate_year`: seed from the prior
year, replay the year's transactions (outflows before inflows within a
transaction), drop negligible ending balances, and report.  Returns
the report together with the updated balance history
(`self.balance_history[year] = final_balances`). -/
def process_and_validate_year (history : List (Int × List (String × ℚ)))
    (year : Int) (transactions : List KryptosekkenTransaction) :
    YearReport × List (Int × List (String × ℚ)) :=
  let starting := get_starting_balances history year
  let final : YearState := transactions.foldl applyTx ⟨starting, []⟩
  let final_balances :=
    final.balances.filter (fun cb => ¬ is_negligible cb.2)
  let report : YearReport :=
    ⟨final.problems.isEmpty, starting, final_balances, final.problems⟩
  (report, history ++ [(year, final_balances)])

/-- `BalanceTracker.save_balance_state`: per year, keep only the
non-negligible balances (`str`/`Decimal` round-trip losslessly, so the
serialized amounts are embedded unchanged). -/
def save_balance_state (history : List (Int × List (String × ℚ))) :
    List (Int × List (String × ℚ)) :=
  history.map (fun yb => (yb.1, yb.2.filter (fun cb => ¬ is_negligible cb.2)))

/-- `BalanceTracker._load_balance_state` applied to a previously saved
file: parsing `int(year)` and `Decimal(amount)` undoes `str` exactly,
so reloading the saved structure is the identity. -/
def load_balance_state (saved : List (Int × List (String × ℚ))) :
    List (Int × List (String × ℚ)) :=
  saved

/-! ## Negative-balance check (`src/kryptosekken_validator.py`,
`_validate_currency_balances`) -/

/-- The net per-currency balances of a transaction list: `inn` adds,
`ut` and `gebyr` subtract; each side counts when the amount is not
`None` and the currency is truthy (the amount itself may be zero
here, unlike in the balance tracker's delta generator). -/
def currency_balances (transactions : List KryptosekkenTransaction) :
    List (String × ℚ) :=
  transactions.foldl
    (fun m tx =>
      let m :=
        match tx.inn, optStr tx.inn_valuta with
        | some a, some c => alAdd m c a
        | _, _ => m
      let m :=
        match tx.ut, optStr tx.ut_valuta with
        | some a, some c => alAdd m c (-a)
        | _, _ => m
      match tx.gebyr, optStr tx.gebyr_valuta with
      | some a, some c => alAdd m c (-a)
      | _, _ => m)
    []

/-- Python `ch in s` for a single character (stated over the string's
character list, which Lean can evaluate). -/
def strContainsChar (s : String) (ch : Char) : Bool :=
  s.data.contains ch

/-- The LP-token test of `_validate_currency_balances`: a hyphen in
the code, and not a fiat code. -/
def isLpTokenCode (currency : String) : Bool :=
  strContainsChar currency '-' && ¬ currency ∈ ["NOK", "USD", "EUR"]

/-- `_validate_currency_balances`, negative-balance partition: every
currency whose net balance is below `-BALANCE_TOLERANCE` lands in the
error list (`negative_balances`) or, for LP-token codes, in the
warning list (`negative_lp_tokens`). -/
def negBalStep (acc : List (String × ℚ) × List (String × ℚ))
    (cb : String × ℚ) : List (String × ℚ) × List (String × ℚ) :=
  if cb.2 < -BALANCE_TOLERANCE then
    if isLpTokenCode cb.1 then (acc.1, acc.2 ++ [cb])
    else (acc.1 ++ [cb], acc.2)
  else acc

def validate_currency_balances (transactions : List KryptosekkenTransaction) :
    List (String × ℚ) × List (String × ℚ) :=
  (currency_balances transactions).foldl negBalStep ([], [])

/-! ## Transaction grouper (`src/transaction_grouper.py`) -/

/-- `TransactionGroup`: a group of related transactions. -/
structure TransactionGroup where
  transactions : List CakeTransaction
  group_type : String
  reference_id : Option String := none
deriving DecidableEq, Repr

/-- `TransactionGroup.timestamp`: the earliest member datetime (Python
`min` over datetimes: first member attaining the minimal instant). -/
def TransactionGroup.timestamp (g : TransactionGroup) : DateTime :=
  match g.transactions with
  | [] => ⟨0, none⟩
  | t :: ts =>
      ts.foldl (fun m x => if x.date.instant < m.instant then x.date else m) t.date

/-- `alAppend` generalized to extending with a whole list
(`weekly_groups[monday].extend(...)`). -/
def alExtend {K V : Type} [DecidableEq K] (m : List (K × List V)) (k : K)
    (vs : List V) : List (K × List V) :=
  match m with
  | [] => [(k, vs)]
  | (k', l) :: rest =>
      if k' = k then (k', l ++ vs) :: rest else (k', l) :: alExtend rest k vs

/-- Sorting a transaction list by `t.date` (Python `list.sort` is a
stable sort by the datetime, i.e. by its instant; `insertionSort` is
stable for this total preorder, so it computes the same list). -/
def sortTxsByDate (l : List CakeTransaction) : List CakeTransaction :=
  List.insertionSort (fun a b => a.date.instant ≤ b.date.instant) l

/-- Assign `tx.original_index = i` to every input transaction
(`for i, tx in enumerate(transactions)`). -/
def assignIndices (transactions : List CakeTransaction) : List CakeTransaction :=
  transactions.enum.map (fun p => { p.2 with original_index := p.1 })

/-- Phase 1 of `group_transactions`: index assignment, then the skip
filter (`should_skip_transaction(tx.operation, float(tx.amount))`;
`Decimal` to `float` preserves the sign test, so the amount is passed
through unchanged). -/
def filteredTransactions (transactions : List CakeTransaction) :
    List CakeTransaction :=
  (assignIndices transactions).filter
    (fun tx => ¬ should_skip_transaction tx.operation (some tx.amount))

/-- Phase 2a: partition into reference-keyed provisional groups
(`related_reference_id` truthy and a grouping-required operation)
versus standalone transactions, both in input order. -/
def partitionStep
    (acc : List (String × List CakeTransaction) × List CakeTransaction)
    (tx : CakeTransaction) :
    List (String × List CakeTransaction) × List CakeTransaction :=
  match optStr tx.related_reference_id with
  | some rid =>
      if requires_grouping tx.operation then (alAppend acc.1 rid tx, acc.2)
      else (acc.1, acc.2 ++ [tx])
  | none => (acc.1, acc.2 ++ [tx])

def partitionGrouping (transactions : List CakeTransaction) :
    List (String × List CakeTransaction) × List CakeTransaction :=
  transactions.foldl partitionStep ([], [])

/-- Phase 2b: attach liquidity result transactions (`Added liquidity` /
`Removed liquidity` standalone events whose own `reference` names an
existing group) to their groups; everything else stays standalone. -/
def attachStep
    (acc : List (String × List CakeTransaction) × List CakeTransaction)
    (tx : CakeTransaction) :
    List (String × List CakeTransaction) × List CakeTransaction :=
  match optStr tx.reference with
  | some r =>
      if tx.operation = "Added liquidity" ∨ tx.operation = "Removed liquidity" then
        if alHasKey acc.1 r then (alAppend acc.1 r tx, acc.2)
        else (acc.1, acc.2 ++ [tx])
      else (acc.1, acc.2 ++ [tx])
  | none => (acc.1, acc.2 ++ [tx])

def attachResults (groups : List (String × List CakeTransaction))
    (singles : List CakeTransaction) :
    List (String × List CakeTransaction) × List CakeTransaction :=
  singles.foldl attachStep (groups, [])

/-- Phase 3 helper: walk a date-sorted list and start a new sub-group
whenever the gap to the previous member exceeds `MAX_TIME_DELTA`
(10 minutes = 600 seconds). -/
def splitByGapAux (prev : CakeTransaction) (cur : List CakeTransaction) :
    List CakeTransaction → List (List CakeTransaction)
  | [] => [cur]
  | t :: rest =>
      if t.date.instant - prev.date.instant > 600 then
        cur :: splitByGapAux t [t] rest
      else
        splitByGapAux t (cur ++ [t]) rest

/-- Phase 3: the temporal split of one provisional group. -/
def splitByGap : List CakeTransaction → List (List CakeTransaction)
  | [] => []
  | t :: rest => splitByGapAux t [t] rest

/-- `TransactionGrouper._determine_group_type`. -/
def determine_group_type (transactions : List CakeTransaction) : String :=
  if transactions.any (fun tx =>
      strStartsWith tx.operation "Add liquidity" || tx.operation = "Added liquidity") then
    "add_liquidity"
  else if transactions.any (fun tx =>
      strStartsWith tx.operation "Remove liquidity" || tx.operation = "Removed liquidity") then
    "remove_liquidity"
  else
    "swap"

/-- Phases 3 and 4a: sort each provisional group by date, split on time
gaps, and tag each split sub-group with its group type and reference id
(`tx_list[0].related_reference_id or tx_list[0].reference`). -/
def referenceGroups (groups : List (String × List CakeTransaction)) :
    List TransactionGroup :=
  (groups.flatMap (fun kv => splitByGap (sortTxsByDate kv.2))).map
    (fun tx_list =>
      let ref :=
        match tx_list.head? with
        | some t =>
            match optStr t.related_reference_id with
            | some r => some r
            | none => t.reference
        | none => none
      ⟨tx_list, determine_group_type tx_list, ref⟩)

/-- `TransactionGrouper._aggregate_eth_daily_to_weekly`: pool the daily
ETH groups by the Monday of their week, and keep a weekly group
whenever the pooled transactions number more than one. -/
def aggregate_eth_daily_to_weekly (eth_daily_groups : List TransactionGroup) :
    List TransactionGroup :=
  let weekly_groups :=
    eth_daily_groups.foldl
      (fun m g => alExtend m (dayMonday g.timestamp.day) g.transactions) []
  (weekly_groups.filter (fun kv => kv.2.length > 1)).map
    (fun kv => ⟨sortTxsByDate kv.2, "daily_rewards", none⟩)

/-- The collection step of `_group_daily_rewards`: standalone income
events are pooled under the key (calendar day, currency). -/
def dailyRewardsStep (m : List ((Int × String) × List CakeTransaction))
    (tx : CakeTransaction) : List ((Int × String) × List CakeTransaction) :=
  if is_income_operation tx.operation (some tx.amount) then
    alAppend m (tx.date.day, tx.coin_asset) tx
  else m

/-- `TransactionGrouper._group_daily_rewards`: group standalone income
events by (calendar day, currency), keep the groups with more than one
member, then supersede the ETH daily groups by weekly ones. -/
def group_daily_rewards (transactions : List CakeTransaction) :
    List TransactionGroup :=
  let daily_groups := transactions.foldl dailyRewardsStep []
  let daily_reward_groups :=
    (daily_groups.filter (fun kv => kv.2.length > 1)).map
      (fun kv => (⟨sortTxsByDate kv.2, "daily_rewards", none⟩ : TransactionGroup))
  let eth_daily_groups :=
    daily_reward_groups.filter
      (fun g => (g.transactions.head?.map (fun t => t.coin_asset)).getD "" = "ETH")
  let non_eth_groups :=
    daily_reward_groups.filter
      (fun g => ¬ (g.transactions.head?.map (fun t => t.coin_asset)).getD "" = "ETH")
  if eth_daily_groups.isEmpty then non_eth_groups
  else non_eth_groups ++ aggregate_eth_daily_to_weekly eth_daily_groups

/-- `TransactionGrouper._get_group_economic_priority`: income `1`,
swap `2`, the (never assigned) group type `"liquidity"` `3`,
everything else `4`. -/
def get_group_economic_priority (group : TransactionGroup) : ℤ :=
  if group.transactions.any
      (fun tx => is_income_operation tx.operation (some tx.amount)) then 1
  else if group.group_type = "swap" then 2
  else if group.group_type = "liquidity" then 3
  else 4

/-- The sort key of the final ordering: normalized timestamp, economic
priority, original input position of the group's first member
(lexicographically). -/
def groupSortKey (g : TransactionGroup) : Lex (ℤ × Lex (ℤ × ℤ)) :=
  toLex (g.timestamp.instant,
    toLex (get_group_economic_priority g,
      ((g.transactions.head?.map (fun t => t.original_index)).getD 0 : ℤ)))

/-- The members of the remaining standalone transactions that were not
pooled into a reward group become singleton groups.  The source
excludes by object identity (`id(tx)`); after index assignment all
transactions are pairwise distinct, so value membership coincides. -/
def singletonGroups (singles : List CakeTransaction)
    (reward_groups : List TransactionGroup) : List TransactionGroup :=
  let groupedMembers := reward_groups.flatMap (fun g => g.transactions)
  (singles.filter (fun tx => ¬ tx ∈ groupedMembers)).map
    (fun tx => (⟨[tx], "single", none⟩ : TransactionGroup))

/-- `group_transactions` before the final sort: reference-correlated
groups, then reward groups, then leftover singletons. -/
def preSortGroups (transactions : List CakeTransaction) :
    List TransactionGroup :=
  let filtered := filteredTransactions transactions
  let part := partitionGrouping filtered
  let attached := attachResults part.1 part.2
  let final_groups := referenceGroups attached.1
  let reward_groups := group_daily_rewards attached.2
  final_groups ++ reward_groups ++ singletonGroups attached.2 reward_groups

/-- `TransactionGrouper.group_transactions`: the full grouping
pipeline, ending in the stable sort by `groupSortKey` (Python's stable
`list.sort`; `insertionSort` over the total preorder induced by the
key computes the same list). -/
def group_transactions (transactions : List CakeTransaction) :
    List TransactionGroup :=
  List.insertionSort (fun g₁ g₂ => groupSortKey g₁ ≤ groupSortKey g₂)
    (preSortGroups transactions)

/-! ## Group converter (`src/transaction_grouper.py`, conversion half)

Conversion functions return `Option`: `none` embeds a propagated
`ValueError` from `get_transaction_type` (or an out-of-range member
access), `some txs` a normal return.
-/

/-- `simplify_operation` (nested in `_convert_single_transaction`):
keep only alphanumeric and whitespace characters, truncate to 30
characters, strip. -/
def simplify_operation (op : String) : String :=
  let filtered := String.mk (op.toList.filter (fun c => c.isAlphanum || c.isWhitespace))
  let truncated :=
    if filtered.length > 30 then String.mk (filtered.toList.take 30) else filtered
  truncated.trim

/-- `TransactionGrouper._convert_single_transaction`. -/
def convert_single_transaction (rates : RateTable) (tx : CakeTransaction) :
    Option (List KryptosekkenTransaction) :=
  match get_transaction_type tx.operation (some tx.amount) with
  | none => none
  | some tx_type =>
      let nok_value := convert_usd_to_nok rates |tx.fiat_value| tx.date
      let simple_note := simplify_operation tx.operation
      if tx_type = .INNTEKT then
        let nok_note :=
          if nok_value = 0 then Note.simple simple_note
          else Note.simpleWithNok simple_note nok_value
        some [⟨some tx.date, tx_type.value, some |tx.amount|, some tx.coin_asset,
          none, none, none, none, some "CakeDeFi", some nok_note, none⟩]
      else if tx_type = .OVERFORING_INN then
        some [⟨some tx.date, tx_type.value, some |tx.amount|, some tx.coin_asset,
          none, none, none, none, some "CakeDeFi", some (Note.simple simple_note), none⟩]
      else if tx_type = .OVERFORING_UT then
        some [⟨some tx.date, tx_type.value, none, none, some |tx.amount|,
          some tx.coin_asset, none, none, some "CakeDeFi",
          some (Note.simple simple_note), none⟩]
      else if tx_type = .FORVALTNINGSKOSTNAD then
        some [⟨some tx.date, tx_type.value, none, none, some |tx.amount|,
          some tx.coin_asset, none, none, some "CakeDeFi",
          some (Note.simple simple_note), none⟩]
      else
        let is_problematic :=
          ["Add liquidity", "Remove liquidity", "Entered Earn", "Exited Earn"].any
            (fun op => strStartsWith tx.operation op)
        if is_problematic then
          if tx.amount < 0 then
            some [⟨some tx.date, KryptosekkenTransactionType.OVERFORING_UT.value,
              none, none, some |tx.amount|, some tx.coin_asset, none, none,
              some "CakeDeFi", some (Note.incompleteDefi simple_note), none⟩]
          else
            some [⟨some tx.date, KryptosekkenTransactionType.OVERFORING_INN.value,
              some |tx.amount|, some tx.coin_asset, none, none, none, none,
              some "CakeDeFi", some (Note.incompleteDefi simple_note), none⟩]
        else
          some [⟨some tx.date, tx_type.value,
            if tx.amount > 0 then some |tx.amount| else none,
            if tx.amount > 0 then some tx.coin_asset else none,
            if tx.amount < 0 then some |tx.amount| else none,
            if tx.amount < 0 then some tx.coin_asset else none,
            none, none, some "CakeDeFi", some (Note.simple simple_note), none⟩]

/-- `TransactionGrouper._fallback_conversion`: decompose the group and
convert every member independently via the singleton rule. -/
def fallback_conversion (rates : RateTable) (group : TransactionGroup) :
    Option (List KryptosekkenTransaction) :=
  (group.transactions.mapM (convert_single_transaction rates)).map List.flatten

/-- The per-currency flow maps of a swap group, plus the last
operation label containing `"Converted"`. -/
structure SwapFlows where
  incoming : List (String × ℚ)
  outgoing : List (String × ℚ)
  fees : List (String × ℚ)
  conversionOp : Option String
deriving DecidableEq, Repr

/-- First half of `_convert_swap_group`: categorize the group's flows
(`Paid swap fee` amounts into the fee map, negative amounts into the
outgoing map, positive into the incoming map). -/
def swapStep (fl0 : SwapFlows) (tx : CakeTransaction) : SwapFlows :=
  let fl :=
    if tx.operation = "Paid swap fee" then
      { fl0 with fees := alAdd fl0.fees tx.coin_asset |tx.amount| }
    else if tx.amount < 0 then
      { fl0 with outgoing := alAdd fl0.outgoing tx.coin_asset |tx.amount| }
    else if tx.amount > 0 then
      { fl0 with incoming := alAdd fl0.incoming tx.coin_asset tx.amount }
    else fl0
  if containsStr tx.operation "Converted" then
    { fl with conversionOp := some tx.operation }
  else fl

def swapCategorize (transactions : List CakeTransaction) : SwapFlows :=
  transactions.foldl swapStep ⟨[], [], [], none⟩

/-- Second half of `_convert_swap_group`: for each originally incoming
currency, when it also occurs outgoing or as a fee and the net amount
is within the `1e-9` tolerance, drop the currency from all three maps
(no partial netting otherwise). -/
def netFlows (fl0 : SwapFlows) : SwapFlows :=
  (fl0.incoming.map Prod.fst).foldl
    (fun fl c =>
      if alHasKey fl.outgoing c || alHasKey fl.fees c then
        let total_in := alGetD fl.incoming c
        let total_out := alGetD fl.outgoing c + alGetD fl.fees c
        if |total_in - total_out| < 1 / 1000000000 then
          { fl with incoming := alPop fl.incoming c,
                    outgoing := alPop fl.outgoing c,
                    fees := alPop fl.fees c }
        else fl
      else fl)
    fl0

/-- `TransactionGrouper._convert_swap_group`. -/
def convert_swap_group (rates : RateTable) (group : TransactionGroup) :
    Option (List KryptosekkenTransaction) :=
  let fl := netFlows (swapCategorize group.transactions)
  match fl.incoming, fl.outgoing with
  | [(inn_valuta, inn_amount)], (ut_valuta, ut_amount) :: _ =>
      some [⟨some group.timestamp, "Handel", some inn_amount, some inn_valuta,
        some ut_amount, some ut_valuta,
        (fl.fees.head?.map (fun e => e.2)), (fl.fees.head?.map (fun e => e.1)),
        some "CakeDeFi", some (Note.swapFromTxs group.transactions.length), none⟩]
  | [(inn_valuta, inn_amount)], [] =>
      match fl.conversionOp with
      | some convOp =>
          let total_inn_value_usd :=
            ((group.transactions.filter (fun tx => tx.amount > 0)).map
              (fun tx => tx.fiat_value)).sum
          let nok_value := convert_usd_to_nok rates |total_inn_value_usd| group.timestamp
          let simple_op := (convOp.replace "Converted " "").replace " to " "→"
          some [⟨some group.timestamp, KryptosekkenTransactionType.INNTEKT.value,
            some inn_amount, some inn_valuta, none, none, none, none,
            some "CakeDeFi", some (Note.conversionIncome simple_op nok_value), none⟩]
      | none => fallback_conversion rates group
  | _, _ => fallback_conversion rates group

/-- `TransactionGrouper._convert_add_liquidity_group`. -/
def convert_add_liquidity_group (rates : RateTable) (group : TransactionGroup) :
    Option (List KryptosekkenTransaction) :=
  let lp_receipt := group.transactions.find? (fun tx => tx.operation = "Added liquidity")
  let provisions := group.transactions.filter
    (fun tx => strStartsWith tx.operation "Add liquidity")
  match lp_receipt with
  | some lp =>
      match provisions with
      | asset1 :: rest =>
          let asset2 := rest.head?
          let nok_value := convert_usd_to_nok rates |lp.fiat_value| lp.date
          some [⟨some lp.date, KryptosekkenTransactionType.HANDEL.value,
            some |lp.amount|, some lp.coin_asset,
            some |asset1.amount|, some asset1.coin_asset,
            (asset2.map (fun t => |t.amount|)), (asset2.map (fun t => t.coin_asset)),
            some "CakeDeFi", some (Note.addLiquidity nok_value), none⟩]
      | [] =>
          let nok_value := convert_usd_to_nok rates |lp.fiat_value| lp.date
          some [⟨some lp.date, KryptosekkenTransactionType.OVERFORING_INN.value,
            some |lp.amount|, some lp.coin_asset, none, none, none, none,
            some "CakeDeFi", some (Note.receivedLpIncomplete nok_value), none⟩]
  | none =>
      if provisions.length > 0 then some []
      else fallback_conversion rates group

/-- `TransactionGrouper._convert_remove_liquidity_group`. -/
def convert_remove_liquidity_group (rates : RateTable) (group : TransactionGroup) :
    Option (List KryptosekkenTransaction) :=
  let lp_disposal := group.transactions.find?
    (fun tx => tx.operation = "Removed liquidity")
  let returns := group.transactions.filter
    (fun tx => strStartsWith tx.operation "Remove liquidity")
  match lp_disposal, returns with
  | some lp, asset1 :: rest =>
      let asset2 := rest.head?
      let nok_value := convert_usd_to_nok rates |lp.fiat_value| group.timestamp
      some [⟨some group.timestamp, KryptosekkenTransactionType.HANDEL.value,
        some |asset1.amount|, some asset1.coin_asset,
        some |lp.amount|, some lp.coin_asset,
        (asset2.map (fun t => |t.amount|)), (asset2.map (fun t => t.coin_asset)),
        some "CakeDeFi", some (Note.removeLiquidity nok_value), none⟩]
  | _, _ => fallback_conversion rates group

/-- `TransactionGrouper._convert_daily_rewards_group`: the exact sum of
member amounts (in absolute value) as the income amount, and the sum
of each member's own quantized NOK conversion (at that member's date)
as the annotation. -/
def convert_daily_rewards_group (rates : RateTable) (group : TransactionGroup) :
    Option (List KryptosekkenTransaction) :=
  match group.transactions with
  | [] => none
  | template :: _ =>
      let total_amount := (group.transactions.map (fun tx => tx.amount)).sum
      let total_nok_value :=
        (group.transactions.map
          (fun tx => convert_usd_to_nok rates |tx.fiat_value| tx.date)).sum
      let timeframe := if template.coin_asset = "ETH" then "Weekly" else "Daily"
      some [⟨some group.timestamp, KryptosekkenTransactionType.INNTEKT.value,
        some |total_amount|, some template.coin_asset, none, none, none, none,
        some "CakeDeFi",
        some (Note.rewards timeframe template.coin_asset
          group.transactions.length total_nok_value), none⟩]

/-- `TransactionGrouper.convert_group_to_kryptosekken`: dispatch on the
group type. -/
def convert_group_to_kryptosekken (rates : RateTable) (group : TransactionGroup) :
    Option (List KryptosekkenTransaction) :=
  if group.group_type = "swap" then convert_swap_group rates group
  else if group.group_type = "add_liquidity" then
    convert_add_liquidity_group rates group
  else if group.group_type = "remove_liquidity" then
    convert_remove_liquidity_group rates group
  else if group.group_type = "daily_rewards" then
    convert_daily_rewards_group rates group
  else
    match group.transactions.head? with
    | some tx => convert_single_transaction rates tx
    | none => none

/-! ## Concrete inputs and statement helpers

Concrete transactions, groups, rate tables and histories used by the
claim theorems, their witnesses and counterexamples, together with the
spec-modelled priority of C3 and small predicates used in statements.
-/

/-- A concrete rate table for the C6 witness: a rate only on day 7. -/
def exRatesC6 : RateTable :=
  fun d => if d = 7 then some (91 / 10) else none

/-- All values stored in a list-valued association list. -/
def valsOf {K V : Type} (m : List (K × List V)) : List V :=
  m.flatMap (fun kv => kv.2)

/-- A negative "Entry staking wallet" event for the C5 witness. -/
def exEntryNegC5 : CakeTransaction :=
  { date := ⟨0, none⟩, operation := "Entry staking wallet", amount := -1,
    coin_asset := "DFI", fiat_value := -2, fiat_currency := "USD" }

/-- A concrete history for the C7 witness: one regular balance and one
negligible dust balance. -/
def exHistoryC7 : List (Int × List (String × ℚ)) :=
  [(2023, [("BTC", 1 / 2), ("DUST", 1 / 400000000)])]

/-- Concrete transactions for the C9 witness: one spends an LP token,
one spends a regular coin; neither is ever received. -/
def exTxsC9 : List KryptosekkenTransaction :=
  [⟨none, "Handel", none, none, some 1, some "BTC-DFI", none, none,
    some "CakeDeFi", none, none⟩,
   ⟨none, "Handel", none, none, some 1, some "BTC", none, none,
    some "CakeDeFi", none, none⟩]

/-- The first withdrawal of the C1 scenario: 1.5 BTC out. -/
def w15C1 : KryptosekkenTransaction :=
  ⟨none, "Overføring-Ut", none, none, some (3 / 2), some "BTC", none, none,
   some "CakeDeFi", none, none⟩

/-- The second withdrawal of the C1 scenario: 1.0 BTC out. -/
def w10C1 : KryptosekkenTransaction :=
  ⟨none, "Overføring-Ut", none, none, some 1, some "BTC", none, none,
   some "CakeDeFi", none, none⟩

/-- The C1 scenario's prior-year history: `{BTC: 2.0}` at the end of 2022. -/
def historyC1 : List (Int × List (String × ℚ)) :=
  [(2022, [("BTC", 2)])]

/-- The three events of the C2 scenario. -/
def tx1C2 : CakeTransaction :=
  ⟨⟨1000, none⟩, "Withdrew for swap", -(191 / 1000), "ETH", 0, "USD",
   none, none, none, some "G1", 0⟩

def tx2C2 : CakeTransaction :=
  ⟨⟨1010, none⟩, "Paid swap fee", -(96 / 100000), "ETH", 0, "USD",
   none, none, none, some "G1", 1⟩

def tx3C2 : CakeTransaction :=
  ⟨⟨1020, none⟩, "Deposit", 3279 / 100, "DFI", 0, "USD",
   none, none, none, some "G1", 2⟩

/-- The C2 scenario group: withdraw 0.191 ETH, pay a 0.00096 ETH swap
fee, deposit 32.79 DFI, all sharing one group id. -/
def exSwapGroupC2 : TransactionGroup :=
  ⟨[tx1C2, tx2C2, tx3C2], "swap", some "G1"⟩

/-- A rewards group with negative member amounts (income-classified
operations with negative amounts reach the rewards path unchanged). -/
def exRewardsNegC4 : TransactionGroup :=
  ⟨[⟨⟨0, none⟩, "Staking reward", -1, "DFI", 0, "USD", none, none, none, none, 0⟩,
    ⟨⟨10, none⟩, "Staking reward", -2, "DFI", 0, "USD", none, none, none, none, 1⟩],
   "daily_rewards", none⟩

/-- A rewards group with positive member amounts for the C4 witness. -/
def exRewardsPosC4 : TransactionGroup :=
  ⟨[⟨⟨0, none⟩, "Staking reward", 1 / 2, "DFI", 0, "USD", none, none, none, none, 0⟩,
    ⟨⟨10, none⟩, "Staking reward", 1 / 4, "DFI", 0, "USD", none, none, none, none, 1⟩],
   "daily_rewards", none⟩

/-- A zero-amount "Deposit" event (classified `Erverv`, hitting the
default trade-like branch of the singleton converter). -/
def exZeroDepositC8 : CakeTransaction :=
  ⟨⟨0, none⟩, "Deposit", 0, "BTC", 0, "USD", none, none, none, none, 0⟩

/-- The membership condition of the daily-rewards pool for key `k`:
an income-classified event whose (calendar day, currency) equals `k`. -/
def incomeKeyed (k : Int × String) (t : CakeTransaction) : Bool :=
  is_income_operation t.operation (some t.amount) && ((t.date.day, t.coin_asset) = k)

/-- The two standalone income events of the C10 witness: each is the
single income event of its own (day, currency). -/
def exIncomeDfiC10 : CakeTransaction :=
  ⟨⟨100, none⟩, "Staking reward", 1, "DFI", 0, "USD", none, none, none, none, 0⟩

def exIncomeBtcC10 : CakeTransaction :=
  ⟨⟨200, none⟩, "Staking reward", 2, "BTC", 0, "USD", none, none, none, none, 1⟩

/-- Modelled from the spec's words (for comparison with the source's
`_get_group_economic_priority`): "income first, then swap, then
liquidity events, then everything else" — liquidity groups (the
grouper labels them `add_liquidity` / `remove_liquidity`) rank third. -/
def specGroupEconomicPriority (group : TransactionGroup) : ℤ :=
  if group.transactions.any
      (fun tx => is_income_operation tx.operation (some tx.amount)) then 1
  else if group.group_type = "swap" then 2
  else if group.group_type = "add_liquidity" ∨ group.group_type = "remove_liquidity"
    then 3
  else 4

/-- The sort key the claim describes, with the spec's liquidity
priority in the middle slot. -/
def specGroupSortKey (g : TransactionGroup) : Lex (ℤ × Lex (ℤ × ℤ)) :=
  toLex (g.timestamp.instant,
    toLex (specGroupEconomicPriority g,
      ((g.transactions.head?.map (fun t => t.original_index)).getD 0 : ℤ)))

/-- The C3 counterexample input: a lone withdrawal and a complete
add-liquidity group, all at the same instant.  The withdrawal has the
smaller original position. -/
def exC3txs : List CakeTransaction :=
  [⟨⟨5000, none⟩, "Withdrawal", -5, "BTC", 0, "USD", none, none, none, none, 0⟩,
   ⟨⟨5000, none⟩, "Add liquidity BTC-DFI", -1, "BTC", 0, "USD",
    none, none, none, some "L1", 0⟩,
   ⟨⟨5000, none⟩, "Add liquidity BTC-DFI", -2, "DFI", 0, "USD",
    none, none, none, some "L1", 0⟩,
   ⟨⟨5000, none⟩, "Added liquidity", 3, "BTC-DFI", 0, "USD",
    none, none, none, some "L1", 0⟩]

/-! ## Lemmas about the nearby-date rate search -/

/-- If the first `n` offsets in a search direction all lack a rate, the
search fails. -/
theorem searchRate_eq_none (rates : RateTable) (step : Int) :
    ∀ (n : Nat) (d : Int),
      (∀ j : Nat, j < n → rates (d + step * ((j : ℤ) + 1)) = none) →
      searchRate rates d step n = none := by
  intro n
  induction n with
  | zero => intro d _; rfl
  | succ m ih =>
      intro d h
      have h0 : rates (d + step) = none := by
        have := h 0 (Nat.succ_pos m)
        simpa using this
      have hrec : searchRate rates (d + step) step m = none := by
        apply ih
        intro j hj
        have := h (j + 1) (by omega)
        have harg : d + step * ((j : ℤ) + 1 + 1) = d + step + step * ((j : ℤ) + 1) := by
          ring
        push_cast at this
        rw [harg] at this
        exact this
      simp [searchRate, h0, hrec]

/-- If the nearest offset with a rate (in a search direction) is the
`(k+1)`-th and `k + 1 ≤ n`, the search returns that rate. -/
theorem searchRate_eq_some (rates : RateTable) (step : Int) :
    ∀ (k n : Nat) (d : Int) (r : ℚ),
      k < n →
      (∀ j : Nat, j < k → rates (d + step * ((j : ℤ) + 1)) = none) →
      rates (d + step * ((k : ℤ) + 1)) = some r →
      searchRate rates d step n = some r := by
  intro k
  induction k with
  | zero =>
      intro n d r hkn _ hfound
      obtain ⟨m, rfl⟩ : ∃ m, n = m + 1 := ⟨n - 1, by omega⟩
      have h0 : rates (d + step) = some r := by simpa using hfound
      simp [searchRate, h0]
  | succ k ih =>
      intro n d r hkn hnone hfound
      obtain ⟨m, rfl⟩ : ∃ m, n = m + 1 := ⟨n - 1, by omega⟩
      have h0 : rates (d + step) = none := by
        have := hnone 0 (Nat.succ_pos k)
        simpa using this
      have hrec : searchRate rates (d + step) step m = some r := by
        apply ih m (d + step) r (by omega)
        · intro j hj
          have := hnone (j + 1) (by omega)
          have harg : d + step * ((j : ℤ) + 1 + 1) = d + step + step * ((j : ℤ) + 1) := by
            ring
          push_cast at this
          rw [harg] at this
          exact this
        · have harg : d + step * ((k : ℤ) + 1 + 1) = d + step + step * ((k : ℤ) + 1) := by
            ring
          push_cast at hfound
          rw [harg] at hfound
          exact hfound
      simp [searchRate, h0, hrec]

/-- C6: for every date, the rate lookup returns the exact-date rate if
present; otherwise the rate of the nearest prior date within 14 days
(searching backward first); otherwise the rate of the nearest future
date within 14 days; otherwise the fixed fallback constant 10.  The
conversion function returns the amount times the looked-up rate rounded
to exactly 2 fractional digits, and a zero input amount yields zero
independently of the rate table (no lookup). -/
theorem C6_rate_lookup_and_conversion :
    (∀ (rates : RateTable) (d : Int) (r : ℚ),
        rates d = some r → find_rate_for_date rates d = some r) ∧
    (∀ (rates : RateTable) (d : Int) (k : Nat) (r : ℚ),
        rates d = none → k < LOOKUP_RANGE_DAYS →
        (∀ j : Nat, j < k → rates (d - ((j : ℤ) + 1)) = none) →
        rates (d - ((k : ℤ) + 1)) = some r →
        find_rate_for_date rates d = some r) ∧
    (∀ (rates : RateTable) (d : Int) (k : Nat) (r : ℚ),
        rates d = none →
        (∀ j : Nat, j < LOOKUP_RANGE_DAYS → rates (d - ((j : ℤ) + 1)) = none) →
        k < LOOKUP_RANGE_DAYS →
        (∀ j : Nat, j < k → rates (d + ((j : ℤ) + 1)) = none) →
        rates (d + ((k : ℤ) + 1)) = some r →
        find_rate_for_date rates d = some r) ∧
    (∀ (rates : RateTable) (dt : DateTime),
        rates dt.day = none →
        (∀ j : Nat, j < LOOKUP_RANGE_DAYS → rates (dt.day - ((j : ℤ) + 1)) = none) →
        (∀ j : Nat, j < LOOKUP_RANGE_DAYS → rates (dt.day + ((j : ℤ) + 1)) = none) →
        get_usd_to_nok_rate rates dt = FALLBACK_USD_NOK_RATE) ∧
    FALLBACK_USD_NOK_RATE = 10 ∧
    (∀ (rates : RateTable) (dt : DateTime), convert_usd_to_nok rates 0 dt = 0) ∧
    (∀ (rates : RateTable) (a : ℚ) (dt : DateTime), a ≠ 0 →
        convert_usd_to_nok rates a dt =
          quantizeNok (a * get_usd_to_nok_rate rates dt)) ∧
    (∀ x : ℚ, ∃ n : ℤ, quantizeNok x = (n : ℚ) / 100) := by
  refine ⟨?_, ?_, ?_, ?_, rfl, ?_, ?_, ?_⟩
  · intro rates d r h
    simp [find_rate_for_date, h]
  · intro rates d k r hd hk hnone hfound
    have hb : searchRate rates d (-1) LOOKUP_RANGE_DAYS = some r := by
      apply searchRate_eq_some rates (-1) k LOOKUP_RANGE_DAYS d r hk
      · intro j hj
        have := hnone j hj
        rw [show d + (-1) * ((j : ℤ) + 1) = d - ((j : ℤ) + 1) by ring]
        exact this
      · rw [show d + (-1) * ((k : ℤ) + 1) = d - ((k : ℤ) + 1) by ring]
        exact hfound
    simp [find_rate_for_date, hd, hb]
  · intro rates d k r hd hback hk hnone hfound
    have hb : searchRate rates d (-1) LOOKUP_RANGE_DAYS = none := by
      apply searchRate_eq_none
      intro j hj
      have := hback j hj
      rw [show d + (-1) * ((j : ℤ) + 1) = d - ((j : ℤ) + 1) by ring]
      exact this
    have hf : searchRate rates d 1 LOOKUP_RANGE_DAYS = some r := by
      apply searchRate_eq_some rates 1 k LOOKUP_RANGE_DAYS d r hk
      · intro j hj
        have := hnone j hj
        rw [show d + 1 * ((j : ℤ) + 1) = d + ((j : ℤ) + 1) by ring]
        exact this
      · rw [show d + 1 * ((k : ℤ) + 1) = d + ((k : ℤ) + 1) by ring]
        exact hfound
    simp [find_rate_for_date, hd, hb, hf]
  · intro rates dt hd hback hfwd
    have hb : searchRate rates dt.day (-1) LOOKUP_RANGE_DAYS = none := by
      apply searchRate_eq_none
      intro j hj
      have := hback j hj
      rw [show dt.day + (-1) * ((j : ℤ) + 1) = dt.day - ((j : ℤ) + 1) by ring]
      exact this
    have hf : searchRate rates dt.day 1 LOOKUP_RANGE_DAYS = none := by
      apply searchRate_eq_none
      intro j hj
      have := hfwd j hj
      rw [show dt.day + 1 * ((j : ℤ) + 1) = dt.day + ((j : ℤ) + 1) by ring]
      exact this
    simp [get_usd_to_nok_rate, find_rate_for_date, hd, hb, hf]
  · intro rates dt
    simp [convert_usd_to_nok]
  · intro rates a dt ha
    simp [convert_usd_to_nok, ha]
  · intro x
    exact ⟨roundHalfEven (x * 100), rfl⟩

/-- C6 witness: on day 10 with the only recorded rate on day 7, the
backward search at distance 3 finds it, and a nonzero conversion
quantizes the product. -/
theorem C6_rate_lookup_and_conversion_witness :
    find_rate_for_date exRatesC6 10 = some (91 / 10) ∧
    convert_usd_to_nok exRatesC6 2 ⟨864000, none⟩ =
      quantizeNok (2 * get_usd_to_nok_rate exRatesC6 ⟨864000, none⟩) := by
  constructor
  · exact C6_rate_lookup_and_conversion.2.1 exRatesC6 10 2 (91 / 10)
      (by norm_num [exRatesC6]) (by norm_num [LOOKUP_RANGE_DAYS])
      (by intro j hj; interval_cases j <;> norm_num [exRatesC6])
      (by norm_num [exRatesC6])
  · exact C6_rate_lookup_and_conversion.2.2.2.2.2.2.1 exRatesC6 2 ⟨864000, none⟩
      (by norm_num)

/-! ## Membership lemmas for the grouping pipeline -/

theorem mem_valsOf_alAppend {K V : Type} [DecidableEq K] {x : V} {k : K} {v : V} :
    ∀ {m : List (K × List V)}, x ∈ valsOf (alAppend m k v) → x ∈ valsOf m ∨ x = v := by
  intro m
  induction m with
  | nil => simp [alAppend, valsOf]
  | cons e rest ih =>
      obtain ⟨k', vs⟩ := e
      by_cases hk : k' = k
      · simp only [alAppend, if_pos hk, valsOf, List.flatMap_cons, List.mem_append]
        rintro (h | h)
        · rcases h with h | h
          · exact Or.inl (Or.inl h)
          · exact Or.inr (by simpa using h)
        · exact Or.inl (Or.inr h)
      · simp only [alAppend, if_neg hk, valsOf, List.flatMap_cons, List.mem_append]
        rintro (h | h)
        · exact Or.inl (Or.inl h)
        · rcases ih h with h | h
          · exact Or.inl (Or.inr h)
          · exact Or.inr h

theorem mem_valsOf_alExtend {K V : Type} [DecidableEq K] {x : V} {k : K} {vs : List V} :
    ∀ {m : List (K × List V)}, x ∈ valsOf (alExtend m k vs) → x ∈ valsOf m ∨ x ∈ vs := by
  intro m
  induction m with
  | nil => simp [alExtend, valsOf]
  | cons e rest ih =>
      obtain ⟨k', l⟩ := e
      by_cases hk : k' = k
      · simp only [alExtend, if_pos hk, valsOf, List.flatMap_cons, List.mem_append]
        rintro (h | h)
        · rcases h with h | h
          · exact Or.inl (Or.inl h)
          · exact Or.inr h
        · exact Or.inl (Or.inr h)
      · simp only [alExtend, if_neg hk, valsOf, List.flatMap_cons, List.mem_append]
        rintro (h | h)
        · exact Or.inl (Or.inl h)
        · rcases ih h with h | h
          · exact Or.inl (Or.inr h)
          · exact Or.inr h

theorem mem_sortTxsByDate {x : CakeTransaction} {l : List CakeTransaction} :
    x ∈ sortTxsByDate l ↔ x ∈ l :=
  (List.perm_insertionSort _ l).mem_iff

theorem splitByGapAux_mem {x : CakeTransaction} :
    ∀ {rest : List CakeTransaction} {prev : CakeTransaction}
      {cur l2 : List CakeTransaction},
      l2 ∈ splitByGapAux prev cur rest → x ∈ l2 → x ∈ cur ∨ x ∈ rest := by
  intro rest
  induction rest with
  | nil =>
      intro prev cur l2 hl2 hx
      simp only [splitByGapAux, List.mem_singleton] at hl2
      subst hl2
      exact Or.inl hx
  | cons t ts ih =>
      intro prev cur l2 hl2 hx
      simp only [splitByGapAux] at hl2
      by_cases hgap : t.date.instant - prev.date.instant > 600
      · rw [if_pos hgap] at hl2
        rcases List.mem_cons.mp hl2 with h | h
        · subst h; exact Or.inl hx
        · rcases ih h hx with h2 | h2
          · rcases List.mem_singleton.mp (by simpa using h2) with rfl
            exact Or.inr (List.mem_cons_self _ _)
          · exact Or.inr (List.mem_cons_of_mem _ h2)
      · rw [if_neg hgap] at hl2
        rcases ih hl2 hx with h2 | h2
        · rcases List.mem_append.mp h2 with h3 | h3
          · exact Or.inl h3
          · rcases List.mem_singleton.mp h3 with rfl
            exact Or.inr (List.mem_cons_self _ _)
        · exact Or.inr (List.mem_cons_of_mem _ h2)

theorem splitByGap_mem {x : CakeTransaction} {l l2 : List CakeTransaction}
    (hl2 : l2 ∈ splitByGap l) (hx : x ∈ l2) : x ∈ l := by
  cases l with
  | nil => simp [splitByGap] at hl2
  | cons t ts =>
      rcases splitByGapAux_mem hl2 hx with h | h
      · rcases List.mem_singleton.mp h with rfl
        exact List.mem_cons_self _ _
      · exact List.mem_cons_of_mem _ h

theorem partitionStep_mem {x tx : CakeTransaction}
    {acc : List (String × List CakeTransaction) × List CakeTransaction}
    (h : x ∈ valsOf (partitionStep acc tx).1 ∨ x ∈ (partitionStep acc tx).2) :
    x ∈ valsOf acc.1 ∨ x ∈ acc.2 ∨ x = tx := by
  unfold partitionStep at h
  cases hop : optStr tx.related_reference_id with
  | some rid =>
      simp only [hop] at h
      by_cases hreq : requires_grouping tx.operation = true
      · simp only [if_pos hreq] at h
        rcases h with h | h
        · rcases mem_valsOf_alAppend h with h2 | h2
          · exact Or.inl h2
          · exact Or.inr (Or.inr h2)
        · exact Or.inr (Or.inl h)
      · simp only [if_neg hreq] at h
        rcases h with h | h
        · exact Or.inl h
        · rcases List.mem_append.mp h with h2 | h2
          · exact Or.inr (Or.inl h2)
          · exact Or.inr (Or.inr (List.mem_singleton.mp h2))
  | none =>
      simp only [hop] at h
      rcases h with h | h
      · exact Or.inl h
      · rcases List.mem_append.mp h with h2 | h2
        · exact Or.inr (Or.inl h2)
        · exact Or.inr (Or.inr (List.mem_singleton.mp h2))

theorem foldl_partitionStep_mem {x : CakeTransaction} :
    ∀ {txs : List CakeTransaction}
      {acc : List (String × List CakeTransaction) × List CakeTransaction},
      (x ∈ valsOf (txs.foldl partitionStep acc).1 ∨
        x ∈ (txs.foldl partitionStep acc).2) →
      x ∈ valsOf acc.1 ∨ x ∈ acc.2 ∨ x ∈ txs := by
  intro txs
  induction txs with
  | nil =>
      intro acc h
      rcases h with h | h
      · exact Or.inl h
      · exact Or.inr (Or.inl h)
  | cons tx ts ih =>
      intro acc h
      rw [List.foldl_cons] at h
      rcases ih h with h2 | h2 | h2
      · rcases partitionStep_mem (Or.inl h2) with h3 | h3 | h3
        · exact Or.inl h3
        · exact Or.inr (Or.inl h3)
        · exact Or.inr (Or.inr (h3 ▸ List.mem_cons_self _ _))
      · rcases partitionStep_mem (Or.inr h2) with h3 | h3 | h3
        · exact Or.inl h3
        · exact Or.inr (Or.inl h3)
        · exact Or.inr (Or.inr (h3 ▸ List.mem_cons_self _ _))
      · exact Or.inr (Or.inr (List.mem_cons_of_mem _ h2))

theorem partitionGrouping_mem {x : CakeTransaction} {txs : List CakeTransaction}
    (h : x ∈ valsOf (partitionGrouping txs).1 ∨ x ∈ (partitionGrouping txs).2) :
    x ∈ txs := by
  rcases foldl_partitionStep_mem h with h2 | h2 | h2
  · simp [valsOf] at h2
  · simp at h2
  · exact h2

theorem attachStep_mem {x tx : CakeTransaction}
    {acc : List (String × List CakeTransaction) × List CakeTransaction}
    (h : x ∈ valsOf (attachStep acc tx).1 ∨ x ∈ (attachStep acc tx).2) :
    x ∈ valsOf acc.1 ∨ x ∈ acc.2 ∨ x = tx := by
  unfold attachStep at h
  cases hop : optStr tx.reference with
  | some r =>
      simp only [hop] at h
      by_cases hops : tx.operation = "Added liquidity" ∨ tx.operation = "Removed liquidity"
      · simp only [if_pos hops] at h
        by_cases hkey : alHasKey acc.1 r = true
        · simp only [if_pos hkey] at h
          rcases h with h | h
          · rcases mem_valsOf_alAppend h with h2 | h2
            · exact Or.inl h2
            · exact Or.inr (Or.inr h2)
          · exact Or.inr (Or.inl h)
        · simp only [if_neg hkey] at h
          rcases h with h | h
          · exact Or.inl h
          · rcases List.mem_append.mp h with h2 | h2
            · exact Or.inr (Or.inl h2)
            · exact Or.inr (Or.inr (List.mem_singleton.mp h2))
      · simp only [if_neg hops] at h
        rcases h with h | h
        · exact Or.inl h
        · rcases List.mem_append.mp h with h2 | h2
          · exact Or.inr (Or.inl h2)
          · exact Or.inr (Or.inr (List.mem_singleton.mp h2))
  | none =>
      simp only [hop] at h
      rcases h with h | h
      · exact Or.inl h
      · rcases List.mem_append.mp h with h2 | h2
        · exact Or.inr (Or.inl h2)
        · exact Or.inr (Or.inr (List.mem_singleton.mp h2))

theorem foldl_attachStep_mem {x : CakeTransaction} :
    ∀ {singles : List CakeTransaction}
      {acc : List (String × List CakeTransaction) × List CakeTransaction},
      (x ∈ valsOf (singles.foldl attachStep acc).1 ∨
        x ∈ (singles.foldl attachStep acc).2) →
      x ∈ valsOf acc.1 ∨ x ∈ acc.2 ∨ x ∈ singles := by
  intro singles
  induction singles with
  | nil =>
      intro acc h
      rcases h with h | h
      · exact Or.inl h
      · exact Or.inr (Or.inl h)
  | cons tx ts ih =>
      intro acc h
      rw [List.foldl_cons] at h
      rcases ih h with h2 | h2 | h2
      · rcases attachStep_mem (Or.inl h2) with h3 | h3 | h3
        · exact Or.inl h3
        · exact Or.inr (Or.inl h3)
        · exact Or.inr (Or.inr (h3 ▸ List.mem_cons_self _ _))
      · rcases attachStep_mem (Or.inr h2) with h3 | h3 | h3
        · exact Or.inl h3
        · exact Or.inr (Or.inl h3)
        · exact Or.inr (Or.inr (h3 ▸ List.mem_cons_self _ _))
      · exact Or.inr (Or.inr (List.mem_cons_of_mem _ h2))

theorem attachResults_mem {x : CakeTransaction}
    {groups : List (String × List CakeTransaction)}
    {singles : List CakeTransaction}
    (h : x ∈ valsOf (attachResults groups singles).1 ∨
      x ∈ (attachResults groups singles).2) :
    x ∈ valsOf groups ∨ x ∈ singles := by
  rcases foldl_attachStep_mem h with h2 | h2 | h2
  · exact Or.inl h2
  · simp at h2
  · exact Or.inr h2

theorem referenceGroups_mem {x : CakeTransaction} {g : TransactionGroup}
    {groups : List (String × List CakeTransaction)}
    (hg : g ∈ referenceGroups groups) (hx : x ∈ g.transactions) :
    x ∈ valsOf groups := by
  unfold referenceGroups at hg
  rcases List.mem_map.mp hg with ⟨tx_list, hmem, rfl⟩
  rcases List.mem_flatMap.mp hmem with ⟨kv, hkv, hsplit⟩
  have hx2 : x ∈ sortTxsByDate kv.2 := splitByGap_mem hsplit hx
  have hx3 : x ∈ kv.2 := mem_sortTxsByDate.mp hx2
  exact List.mem_flatMap.mpr ⟨kv, hkv, hx3⟩

theorem foldl_dailyRewardsStep_mem {x : CakeTransaction} :
    ∀ {txs : List CakeTransaction}
      {m : List ((Int × String) × List CakeTransaction)},
      x ∈ valsOf (txs.foldl dailyRewardsStep m) → x ∈ valsOf m ∨ x ∈ txs := by
  intro txs
  induction txs with
  | nil => intro m h; exact Or.inl h
  | cons tx ts ih =>
      intro m h
      rw [List.foldl_cons] at h
      rcases ih h with h2 | h2
      · unfold dailyRewardsStep at h2
        by_cases hinc : is_income_operation tx.operation (some tx.amount) = true
        · simp only [if_pos hinc] at h2
          rcases mem_valsOf_alAppend h2 with h3 | h3
          · exact Or.inl h3
          · exact Or.inr (h3 ▸ List.mem_cons_self _ _)
        · simp only [if_neg hinc] at h2
          exact Or.inl h2
      · exact Or.inr (List.mem_cons_of_mem _ h2)

theorem foldl_weeklyStep_mem {x : CakeTransaction} :
    ∀ {gs : List TransactionGroup}
      {m : List (Int × List CakeTransaction)},
      x ∈ valsOf (gs.foldl
        (fun m g => alExtend m (dayMonday g.timestamp.day) g.transactions) m) →
      x ∈ valsOf m ∨ ∃ g ∈ gs, x ∈ g.transactions := by
  intro gs
  induction gs with
  | nil => intro m h; exact Or.inl h
  | cons g gs ih =>
      intro m h
      rw [List.foldl_cons] at h
      rcases ih h with h2 | h2
      · rcases mem_valsOf_alExtend h2 with h3 | h3
        · exact Or.inl h3
        · exact Or.inr ⟨g, List.mem_cons_self _ _, h3⟩
      · rcases h2 with ⟨g2, hg2, hx2⟩
        exact Or.inr ⟨g2, List.mem_cons_of_mem _ hg2, hx2⟩

theorem aggregate_eth_daily_to_weekly_mem {x : CakeTransaction}
    {g : TransactionGroup} {gs : List TransactionGroup}
    (hg : g ∈ aggregate_eth_daily_to_weekly gs) (hx : x ∈ g.transactions) :
    ∃ g2 ∈ gs, x ∈ g2.transactions := by
  unfold aggregate_eth_daily_to_weekly at hg
  rcases List.mem_map.mp hg with ⟨kv, hkv, rfl⟩
  have hkv2 := List.mem_of_mem_filter hkv
  have hx2 : x ∈ kv.2 := mem_sortTxsByDate.mp hx
  have hx3 : x ∈ valsOf (gs.foldl
      (fun m g => alExtend m (dayMonday g.timestamp.day) g.transactions) []) :=
    List.mem_flatMap.mpr ⟨kv, hkv2, hx2⟩
  rcases foldl_weeklyStep_mem hx3 with h | h
  · simp [valsOf] at h
  · exact h

theorem group_daily_rewards_mem {x : CakeTransaction} {g : TransactionGroup}
    {singles : List CakeTransaction}
    (hg : g ∈ group_daily_rewards singles) (hx : x ∈ g.transactions) :
    x ∈ singles := by
  unfold group_daily_rewards at hg
  have daily_mem : ∀ g2 : TransactionGroup,
      g2 ∈ ((singles.foldl dailyRewardsStep []).filter
        (fun kv => kv.2.length > 1)).map
        (fun kv => (⟨sortTxsByDate kv.2, "daily_rewards", none⟩ : TransactionGroup)) →
      ∀ y : CakeTransaction, y ∈ g2.transactions → y ∈ singles := by
    intro g2 hg2 y hy
    rcases List.mem_map.mp hg2 with ⟨kv, hkv, rfl⟩
    have hkv2 := List.mem_of_mem_filter hkv
    have hy2 : y ∈ kv.2 := mem_sortTxsByDate.mp hy
    have hy3 : y ∈ valsOf (singles.foldl dailyRewardsStep []) :=
      List.mem_flatMap.mpr ⟨kv, hkv2, hy2⟩
    rcases foldl_dailyRewardsStep_mem hy3 with h | h
    · simp [valsOf] at h
    · exact h
  by_cases heth : (((singles.foldl dailyRewardsStep []).filter
      (fun kv => kv.2.length > 1)).map
      (fun kv => (⟨sortTxsByDate kv.2, "daily_rewards", none⟩ : TransactionGroup))).filter
      (fun g => (g.transactions.head?.map (fun t => t.coin_asset)).getD "" = "ETH")
      |>.isEmpty
  · simp only [heth, if_pos] at hg
    exact daily_mem g (List.mem_of_mem_filter hg) x hx
  · simp only [heth, if_neg, Bool.false_eq_true, not_false_iff] at hg
    rcases List.mem_append.mp hg with h | h
    · exact daily_mem g (List.mem_of_mem_filter h) x hx
    · rcases aggregate_eth_daily_to_weekly_mem h hx with ⟨g2, hg2, hx2⟩
      exact daily_mem g2 (List.mem_of_mem_filter hg2) x hx2

theorem singletonGroups_mem {x : CakeTransaction} {g : TransactionGroup}
    {singles : List CakeTransaction} {reward_groups : List TransactionGroup}
    (hg : g ∈ singletonGroups singles reward_groups) (hx : x ∈ g.transactions) :
    x ∈ singles := by
  unfold singletonGroups at hg
  rcases List.mem_map.mp hg with ⟨tx, htx, rfl⟩
  rcases List.mem_singleton.mp hx with rfl
  exact List.mem_of_mem_filter htx

/-- Every member of every group produced by `group_transactions` comes
from the skip-filtered, index-assigned input. -/
theorem group_transactions_mem {x : CakeTransaction} {g : TransactionGroup}
    {txs : List CakeTransaction}
    (hg : g ∈ group_transactions txs) (hx : x ∈ g.transactions) :
    x ∈ filteredTransactions txs := by
  unfold group_transactions at hg
  have hg2 : g ∈ preSortGroups txs :=
    (List.perm_insertionSort _ _).mem_iff.mp hg
  unfold preSortGroups at hg2
  rcases List.mem_append.mp hg2 with h | h
  · rcases List.mem_append.mp h with h2 | h2
    · have := referenceGroups_mem h2 hx
      apply partitionGrouping_mem
      rcases attachResults_mem (Or.inl this) with h3 | h3
      · exact Or.inl h3
      · exact Or.inr h3
    · have := group_daily_rewards_mem h2 hx
      apply partitionGrouping_mem
      rcases attachResults_mem (Or.inr this) with h3 | h3
      · exact Or.inl h3
      · exact Or.inr h3
  · have := singletonGroups_mem h hx
    apply partitionGrouping_mem
    rcases attachResults_mem (Or.inr this) with h3 | h3
    · exact Or.inl h3
    · exact Or.inr h3

/-- C5: the single sign-dependent label "Entry staking wallet"
classifies as transfer-out (pending skip) for a negative amount — and
such an event is dropped entirely before grouping, appearing in no
group of the grouper's output (hence contributing no canonical
transaction and no balance effect) — as income for a positive amount,
and as income when no amount is supplied. -/
theorem C5_entry_staking_wallet :
    (∀ a : ℚ, a < 0 →
        get_transaction_type "Entry staking wallet" (some a) =
          some KryptosekkenTransactionType.OVERFORING_UT ∧
        should_skip_transaction "Entry staking wallet" (some a) = true) ∧
    (∀ a : ℚ, 0 < a →
        get_transaction_type "Entry staking wallet" (some a) =
          some KryptosekkenTransactionType.INNTEKT ∧
        should_skip_transaction "Entry staking wallet" (some a) = false) ∧
    get_transaction_type "Entry staking wallet" none =
      some KryptosekkenTransactionType.INNTEKT ∧
    (∀ (txs : List CakeTransaction) (g : TransactionGroup) (tx : CakeTransaction),
        g ∈ group_transactions txs → tx ∈ g.transactions →
        ¬ (tx.operation = "Entry staking wallet" ∧ tx.amount < 0)) := by
  refine ⟨?_, ?_, ?_, ?_⟩
  · intro a ha
    constructor
    · simp [get_transaction_type, ha]
    · simp [should_skip_transaction, ha]
  · intro a ha
    have hnot : ¬ a < 0 := not_lt.mpr (le_of_lt ha)
    constructor
    · simp [get_transaction_type, hnot]
    · simp [should_skip_transaction, hnot]
  · decide
  · intro txs g tx hg htx ⟨hop, hneg⟩
    have hmem := group_transactions_mem hg htx
    have hfil := List.of_mem_filter hmem
    rw [decide_eq_true_iff] at hfil
    exact hfil (by simp [should_skip_transaction, hop, hneg])

/-- C5 witness: the classification of a concrete negative amount, and
the pipeline-level drop applied to the single group of a concrete
input (an event with positive amount, whose group exists). -/
theorem C5_entry_staking_wallet_witness :
    (get_transaction_type "Entry staking wallet" (some (-1)) =
      some KryptosekkenTransactionType.OVERFORING_UT ∧
     should_skip_transaction "Entry staking wallet" (some (-1)) = true) ∧
    group_transactions [exEntryNegC5] = [] := by
  constructor
  · exact C5_entry_staking_wallet.1 (-1) (by norm_num)
  · decide

/-! ## Lemmas for the persisted-state round-trip -/

theorem alGet_cons_self {K V : Type} [DecidableEq K] (k : K) (v : V)
    (rest : List (K × V)) : alGet ((k, v) :: rest) k = some v := by
  unfold alGet
  rw [List.find?_cons_of_pos _ (by simp)]
  rfl

theorem alGet_cons_ne {K V : Type} [DecidableEq K] {k c : K} (h : ¬ k = c)
    (v : V) (rest : List (K × V)) : alGet ((k, v) :: rest) c = alGet rest c := by
  unfold alGet
  rw [List.find?_cons_of_neg _ (by simp [h])]

theorem alGet_eq_none_iff {K V : Type} [DecidableEq K] {m : List (K × V)} {k : K} :
    alGet m k = none ↔ ∀ e ∈ m, e.1 ≠ k := by
  unfold alGet
  rw [Option.map_eq_none', List.find?_eq_none]
  constructor
  · intro h e he
    simpa using h e he
  · intro h e he
    simpa using h e he

theorem alGet_map_snd {K V W : Type} [DecidableEq K] (f : V → W)
    (m : List (K × V)) (k : K) :
    alGet (m.map (fun e => (e.1, f e.2))) k = (alGet m k).map f := by
  induction m with
  | nil => rfl
  | cons e rest ih =>
      by_cases hk : e.1 = k
      · obtain ⟨k1, v1⟩ := e
        simp only at hk
        subst hk
        rw [List.map_cons]
        rw [alGet_cons_self, alGet_cons_self]
        rfl
      · obtain ⟨k1, v1⟩ := e
        simp only at hk
        rw [List.map_cons]
        rw [alGet_cons_ne hk, alGet_cons_ne hk]
        exact ih

theorem alGet_filter_negligible {c : String} :
    ∀ {bs : List (String × ℚ)}, (bs.map Prod.fst).Nodup →
      alGet (bs.filter (fun cb => ¬ is_negligible cb.2)) c =
        (alGet bs c).bind (fun v => if is_negligible v then none else some v) := by
  intro bs
  induction bs with
  | nil => intro _; rfl
  | cons e rest ih =>
      intro hnd
      obtain ⟨k, v⟩ := e
      have hk_not : k ∉ rest.map Prod.fst := by
        simpa using (List.nodup_cons.mp hnd).1
      have hnd2 : (rest.map Prod.fst).Nodup := (List.nodup_cons.mp hnd).2
      by_cases hc : k = c
      · subst hc
        by_cases hneg : is_negligible v = true
        · have hrest : alGet rest k = none := by
            rw [alGet_eq_none_iff]
            intro e2 he2 hne
            exact hk_not (hne ▸ List.mem_map_of_mem Prod.fst he2)
          have hfil : alGet (rest.filter (fun cb => ¬ is_negligible cb.2)) k = none := by
            rw [alGet_eq_none_iff]
            intro e2 he2
            exact (alGet_eq_none_iff.mp hrest) e2 (List.mem_of_mem_filter he2)
          rw [List.filter_cons_of_neg (by simp [hneg])]
          rw [hfil, alGet_cons_self]
          simp [hneg]
        · rw [List.filter_cons_of_pos (by simp [hneg])]
          rw [alGet_cons_self, alGet_cons_self]
          simp [hneg]
      · by_cases hneg : is_negligible v = true
        · rw [List.filter_cons_of_neg (by simp [hneg])]
          rw [alGet_cons_ne hc]
          exact ih hnd2
        · rw [List.filter_cons_of_pos (by simp [hneg])]
          rw [alGet_cons_ne hc, alGet_cons_ne hc]
          exact ih hnd2

/-- C7: reloading a saved balance history reproduces the same
year-to-currency-to-amount mapping, except that entries whose absolute
value is below the negligible threshold `1e-8` are dropped on save and
therefore absent after reload (stated for histories whose per-year
currency keys are distinct, as dictionaries guarantee); the set of
recorded years is unchanged. -/
theorem C7_balance_state_round_trip :
    ∀ (history : List (Int × List (String × ℚ))),
      (∀ yb ∈ history, ((yb.2.map Prod.fst).Nodup)) →
      ((load_balance_state (save_balance_state history)).map Prod.fst =
        history.map Prod.fst) ∧
      ∀ (y : Int) (c : String),
        ((alGet (load_balance_state (save_balance_state history)) y).bind
          (fun bs => alGet bs c)) =
          ((alGet history y).bind (fun bs => alGet bs c)).bind
            (fun v => if is_negligible v then none else some v) := by
  intro history hnd
  constructor
  · simp [load_balance_state, save_balance_state]
  · intro y c
    unfold load_balance_state save_balance_state
    rw [alGet_map_snd (fun bs => bs.filter (fun cb => ¬ is_negligible cb.2)) history y]
    cases hy : alGet history y with
    | none => rfl
    | some bs =>
        simp only [Option.map_some', Option.some_bind]
        have hmem : (y, bs) ∈ history := by
          unfold alGet at hy
          rcases Option.map_eq_some'.mp hy with ⟨e, hfind, he2⟩
          have he1 : e.1 = y := by
            have := List.find?_some hfind
            simpa using this
          have := List.mem_of_find?_eq_some hfind
          rwa [show e = (y, bs) from Prod.ext he1 he2] at this
        exact alGet_filter_negligible (hnd (y, bs) hmem)

/-- C7 witness: after a save/load round-trip of the concrete history,
the regular balance is reproduced and the negligible one is gone. -/
theorem C7_balance_state_round_trip_witness :
    ((alGet (load_balance_state (save_balance_state exHistoryC7)) 2023).bind
        (fun bs => alGet bs "BTC") =
      ((alGet exHistoryC7 2023).bind (fun bs => alGet bs "BTC")).bind
        (fun v => if is_negligible v then none else some v)) ∧
    ((alGet (load_balance_state (save_balance_state exHistoryC7)) 2023).bind
        (fun bs => alGet bs "DUST") =
      ((alGet exHistoryC7 2023).bind (fun bs => alGet bs "DUST")).bind
        (fun v => if is_negligible v then none else some v)) ∧
    (alGet (load_balance_state (save_balance_state exHistoryC7)) 2023).bind
        (fun bs => alGet bs "DUST") = none := by
  have hnd : ∀ yb ∈ exHistoryC7, ((yb.2.map Prod.fst).Nodup) := by
    intro yb hyb
    simp only [exHistoryC7, List.mem_singleton] at hyb
    subst hyb
    decide
  refine ⟨?_, ?_, ?_⟩
  · exact (C7_balance_state_round_trip exHistoryC7 hnd).2 2023 "BTC"
  · exact (C7_balance_state_round_trip exHistoryC7 hnd).2 2023 "DUST"
  · rw [(C7_balance_state_round_trip exHistoryC7 hnd).2 2023 "DUST"]
    have h1 : alGet exHistoryC7 2023 =
        some [("BTC", 1 / 2), ("DUST", (1 : ℚ) / 400000000)] := by
      unfold exHistoryC7
      exact alGet_cons_self _ _ _
    rw [h1]
    simp only [Option.some_bind]
    rw [alGet_cons_ne (by decide) _ _, alGet_cons_self]
    simp only [Option.some_bind]
    have hneg : is_negligible ((1 : ℚ) / 400000000) = true := by
      unfold is_negligible NEGLIGIBLE_AMOUNT
      rw [decide_eq_true_eq, abs_of_pos (by norm_num)]
      norm_num
    rw [if_pos hneg]

/-! ## Lemmas for the negative-balance partition -/

theorem foldl_negBalStep_mem {c : String} {b : ℚ} :
    ∀ {bal : List (String × ℚ)} {acc : List (String × ℚ) × List (String × ℚ)},
      ((c, b) ∈ (bal.foldl negBalStep acc).1 ↔
        (c, b) ∈ acc.1 ∨
          ((c, b) ∈ bal ∧ b < -BALANCE_TOLERANCE ∧ isLpTokenCode c = false)) ∧
      ((c, b) ∈ (bal.foldl negBalStep acc).2 ↔
        (c, b) ∈ acc.2 ∨
          ((c, b) ∈ bal ∧ b < -BALANCE_TOLERANCE ∧ isLpTokenCode c = true)) := by
  intro bal
  induction bal with
  | nil =>
      intro acc
      constructor
      · simp
      · simp
  | cons cb rest ih =>
      intro acc
      rw [List.foldl_cons]
      have expand : ∀ z : String × ℚ, z ∈ rest → z ∈ (cb :: rest) :=
        fun z hz => List.mem_cons_of_mem _ hz
      constructor
      · rw [ih.1]
        unfold negBalStep
        by_cases hneg : cb.2 < -BALANCE_TOLERANCE
        · rw [if_pos hneg]
          by_cases hlp : isLpTokenCode cb.1 = true
          · rw [if_pos hlp]
            constructor
            · rintro (h | h)
              · exact Or.inl h
              · exact Or.inr ⟨List.mem_cons_of_mem _ h.1, h.2⟩
            · rintro (h | ⟨hmem, hb, hnotlp⟩)
              · exact Or.inl h
              · rcases List.mem_cons.mp hmem with h2 | h2
                · exfalso
                  rw [← h2] at hlp
                  rw [hlp] at hnotlp
                  exact Bool.true_eq_false.mp hnotlp
                · exact Or.inr ⟨h2, hb, hnotlp⟩
          · rw [if_neg hlp]
            constructor
            · rintro (h | h)
              · rcases List.mem_append.mp h with h2 | h2
                · exact Or.inl h2
                · rcases List.mem_singleton.mp h2 with rfl
                  exact Or.inr ⟨List.mem_cons_self _ _, hneg,
                    Bool.not_eq_true _ ▸ Bool.of_not_eq_true hlp⟩
              · exact Or.inr ⟨List.mem_cons_of_mem _ h.1, h.2⟩
            · rintro (h | ⟨hmem, hb, hnotlp⟩)
              · exact Or.inl (List.mem_append_left _ h)
              · rcases List.mem_cons.mp hmem with h2 | h2
                · exact Or.inl (List.mem_append_right _
                    (List.mem_singleton.mpr h2))
                · exact Or.inr ⟨h2, hb, hnotlp⟩
        · rw [if_neg hneg]
          constructor
          · rintro (h | h)
            · exact Or.inl h
            · exact Or.inr ⟨List.mem_cons_of_mem _ h.1, h.2⟩
          · rintro (h | ⟨hmem, hb, hnotlp⟩)
            · exact Or.inl h
            · rcases List.mem_cons.mp hmem with h2 | h2
              · exfalso
                have hcb2 : cb.2 = b := by rw [← h2]
                rw [hcb2] at hneg
                exact hneg hb
              · exact Or.inr ⟨h2, hb, hnotlp⟩
      · rw [ih.2]
        unfold negBalStep
        by_cases hneg : cb.2 < -BALANCE_TOLERANCE
        · rw [if_pos hneg]
          by_cases hlp : isLpTokenCode cb.1 = true
          · rw [if_pos hlp]
            constructor
            · rintro (h | h)
              · rcases List.mem_append.mp h with h2 | h2
                · exact Or.inl h2
                · rcases List.mem_singleton.mp h2 with rfl
                  exact Or.inr ⟨List.mem_cons_self _ _, hneg, hlp⟩
              · exact Or.inr ⟨List.mem_cons_of_mem _ h.1, h.2⟩
            · rintro (h | ⟨hmem, hb, hislp⟩)
              · exact Or.inl (List.mem_append_left _ h)
              · rcases List.mem_cons.mp hmem with h2 | h2
                · exact Or.inl (List.mem_append_right _
                    (List.mem_singleton.mpr h2))
                · exact Or.inr ⟨h2, hb, hislp⟩
          · rw [if_neg hlp]
            constructor
            · rintro (h | h)
              · exact Or.inl h
              · exact Or.inr ⟨List.mem_cons_of_mem _ h.1, h.2⟩
            · rintro (h | ⟨hmem, hb, hislp⟩)
              · exact Or.inl h
              · rcases List.mem_cons.mp hmem with h2 | h2
                · exfalso
                  have hcb1 : cb.1 = c := by rw [← h2]
                  rw [hcb1] at hlp
                  exact hlp hislp
                · exact Or.inr ⟨h2, hb, hislp⟩
        · rw [if_neg hneg]
          constructor
          · rintro (h | h)
            · exact Or.inl h
            · exact Or.inr ⟨List.mem_cons_of_mem _ h.1, h.2⟩
          · rintro (h | ⟨hmem, hb, hislp⟩)
            · exact Or.inl h
            · rcases List.mem_cons.mp hmem with h2 | h2
              · exfalso
                have hcb2 : cb.2 = b := by rw [← h2]
                rw [hcb2] at hneg
                exact hneg hb
              · exact Or.inr ⟨h2, hb, hislp⟩

/-- C9: in the validator's negative-balance check, every currency with
net balance below the negative tolerance whose code contains a hyphen
(an LP-token pair code) is reported in the warning list and never in
the error list, while every other currency with such a negative net
balance is always reported in the error list (and not as a warning). -/
theorem C9_lp_token_negative_policy :
    ∀ (txs : List KryptosekkenTransaction) (c : String) (b : ℚ),
      alGet (currency_balances txs) c = some b →
      b < -BALANCE_TOLERANCE →
      (strContainsChar c '-' = true →
        (c, b) ∈ (validate_currency_balances txs).2 ∧
        (c, b) ∉ (validate_currency_balances txs).1) ∧
      (strContainsChar c '-' = false →
        (c, b) ∈ (validate_currency_balances txs).1 ∧
        (c, b) ∉ (validate_currency_balances txs).2) := by
  intro txs c b hget hneg
  have hmem : (c, b) ∈ currency_balances txs := by
    unfold alGet at hget
    rcases Option.map_eq_some'.mp hget with ⟨e, hfind, he2⟩
    have he1 : e.1 = c := by
      have := List.find?_some hfind
      simpa using this
    have := List.mem_of_find?_eq_some hfind
    rwa [show e = (c, b) from Prod.ext he1 he2] at this
  constructor
  · intro hcont
    have hlp : isLpTokenCode c = true := by
      unfold isLpTokenCode
      by_cases hfiat : c ∈ ["NOK", "USD", "EUR"]
      · exfalso
        simp only [List.mem_cons] at hfiat
        rcases hfiat with rfl | rfl | rfl | h
        · exact absurd hcont (by decide)
        · exact absurd hcont (by decide)
        · exact absurd hcont (by decide)
        · simp at h
      · simp [hcont, hfiat]
    constructor
    · exact (foldl_negBalStep_mem.2).mpr (Or.inr ⟨hmem, hneg, hlp⟩)
    · intro habs
      rcases (foldl_negBalStep_mem.1).mp habs with h | ⟨_, _, hfalse⟩
      · simp at h
      · rw [hlp] at hfalse
        exact Bool.true_eq_false.mp hfalse
  · intro hcont
    have hlp : isLpTokenCode c = false := by
      unfold isLpTokenCode
      simp [hcont]
    constructor
    · exact (foldl_negBalStep_mem.1).mpr (Or.inr ⟨hmem, hneg, hlp⟩)
    · intro habs
      rcases (foldl_negBalStep_mem.2).mp habs with h | ⟨_, _, htrue⟩
      · simp at h
      · rw [hlp] at htrue
        exact Bool.false_eq_true.mp htrue

/-- C9 witness: the LP-token code `BTC-DFI` at balance `-1` lands in
the warning list only, and the regular code `BTC` at `-1` lands in the
error list only. -/
theorem C9_lp_token_negative_policy_witness :
    (("BTC-DFI", (-1 : ℚ)) ∈ (validate_currency_balances exTxsC9).2 ∧
     ("BTC-DFI", (-1 : ℚ)) ∉ (validate_currency_balances exTxsC9).1) ∧
    (("BTC", (-1 : ℚ)) ∈ (validate_currency_balances exTxsC9).1 ∧
     ("BTC", (-1 : ℚ)) ∉ (validate_currency_balances exTxsC9).2) := by
  have hb : (-1 : ℚ) < -BALANCE_TOLERANCE := by
    unfold BALANCE_TOLERANCE
    norm_num
  constructor
  · exact (C9_lp_token_negative_policy exTxsC9 "BTC-DFI" (-1) rfl hb).1 (by decide)
  · exact (C9_lp_token_negative_policy exTxsC9 "BTC" (-1) rfl hb).2 (by decide)

/-! ## Lemmas and claim theorems for the yearly balance replay -/

theorem alGetD_alAdd {K : Type} [DecidableEq K] (k : K) (a : ℚ) :
    ∀ (m : List (K × ℚ)), alGetD (alAdd m k a) k = alGetD m k + a := by
  intro m
  induction m with
  | nil =>
      show alGetD [(k, a)] k = alGetD [] k + a
      rw [alGetD, alGet_cons_self, alGetD]
      simp [alGet]
  | cons e rest ih =>
      obtain ⟨k', v⟩ := e
      by_cases hk : k' = k
      · subst hk
        show alGetD (alAdd ((k', v) :: rest) k' a) k' = alGetD ((k', v) :: rest) k' + a
        unfold alAdd
        rw [if_pos rfl]
        rw [alGetD, alGet_cons_self, alGetD, alGet_cons_self]
        rfl
      · show alGetD (alAdd ((k', v) :: rest) k a) k = alGetD ((k', v) :: rest) k + a
        unfold alAdd
        rw [if_neg hk]
        rw [alGetD, alGet_cons_ne hk, alGetD, alGet_cons_ne hk]
        exact ih

/-- C1: in the yearly replay, an outflow exceeding the running balance
records exactly one problem entry carrying the currency, attempted
amount, available amount and deficit `attempted - available`, and the
debit is applied regardless (the balance may go negative); a
sufficiently funded outflow records nothing and is debited; the report
is valid iff no problem entries were recorded.  In the concrete
scenario (opening `{BTC: 2}`, withdraw 1.5 then 1.0 BTC) the ending
BTC balance is `-0.5` and exactly one problem entry with deficit `0.5`
is recorded. -/
theorem C1_balance_replay :
    (∀ (tx : KryptosekkenTransaction) (st : YearState) (d : Delta),
      d.isOutflow = true →
      (alGetD st.balances d.currency < d.amount →
        (applyDelta tx st d).problems = st.problems ++
          [⟨tx.row_num, d.currency, d.amount, alGetD st.balances d.currency,
            d.amount - alGetD st.balances d.currency, tx.type, d.desc⟩] ∧
        alGetD (applyDelta tx st d).balances d.currency =
          alGetD st.balances d.currency - d.amount) ∧
      (¬ alGetD st.balances d.currency < d.amount →
        (applyDelta tx st d).problems = st.problems ∧
        alGetD (applyDelta tx st d).balances d.currency =
          alGetD st.balances d.currency - d.amount)) ∧
    (∀ (history : List (Int × List (String × ℚ))) (year : Int)
        (txs : List KryptosekkenTransaction),
      (process_and_validate_year history year txs).1.valid = true ↔
        (process_and_validate_year history year txs).1.problematic_transactions = []) ∧
    (alGet (process_and_validate_year historyC1 2023 [w15C1, w10C1]).1.ending_balances
        "BTC" = some (-(1 / 2)) ∧
     (process_and_validate_year historyC1 2023 [w15C1, w10C1]).1.problematic_transactions =
        [⟨none, "BTC", 1, 1 / 2, 1 / 2, "Overføring-Ut", "outflow"⟩] ∧
     (process_and_validate_year historyC1 2023 [w15C1, w10C1]).1.valid = false) := by
  refine ⟨?_, ?_, ?_⟩
  · intro tx st d hout
    constructor
    · intro hlt
      unfold applyDelta
      rw [if_pos hout]
      constructor
      · simp only [if_pos hlt]
      · show alGetD (alAdd st.balances d.currency (-d.amount)) d.currency = _
        rw [alGetD_alAdd]
        ring
    · intro hge
      unfold applyDelta
      rw [if_pos hout]
      constructor
      · simp only [if_neg hge]
      · show alGetD (alAdd st.balances d.currency (-d.amount)) d.currency = _
        rw [alGetD_alAdd]
        ring
  · intro history year txs
    unfold process_and_validate_year
    simp only
    exact List.isEmpty_iff
  · have hstart : get_starting_balances historyC1 2023 = [("BTC", (2 : ℚ))] := by
      unfold get_starting_balances historyC1
      rw [show (2023 : ℤ) - 1 = 2022 by norm_num, alGet_cons_self]
      rfl
    have hdelta1 : get_transaction_deltas w15C1 =
        [⟨"BTC", 3 / 2, true, "outflow"⟩] := by
      norm_num [get_transaction_deltas, fieldDelta, w15C1]
      decide
    have hdelta2 : get_transaction_deltas w10C1 =
        [⟨"BTC", 1, true, "outflow"⟩] := by
      norm_num [get_transaction_deltas, fieldDelta, w10C1]
      decide
    have happ1 : applyTx ⟨[("BTC", 2)], []⟩ w15C1 = ⟨[("BTC", 1 / 2)], []⟩ := by
      unfold applyTx
      rw [hdelta1]
      simp only [List.foldl_cons, List.foldl_nil]
      unfold applyDelta
      norm_num [alGetD, alGet_cons_self, alAdd]
    have happ2 : applyTx ⟨[("BTC", 1 / 2)], []⟩ w10C1 =
        ⟨[("BTC", -(1 / 2))],
         [⟨none, "BTC", 1, 1 / 2, 1 / 2, "Overføring-Ut", "outflow"⟩]⟩ := by
      unfold applyTx
      rw [hdelta2]
      simp only [List.foldl_cons, List.foldl_nil]
      unfold applyDelta
      norm_num [alGetD, alGet_cons_self, alAdd, w10C1]
    have hnegfalse : is_negligible (-(1 / 2) : ℚ) = false := by
      unfold is_negligible NEGLIGIBLE_AMOUNT
      rw [decide_eq_false_iff_not, abs_of_neg (by norm_num)]
      norm_num
    have hkeep : ([("BTC", -(1 / 2))] :
        List (String × ℚ)).filter (fun cb => ¬ is_negligible cb.2) =
        [("BTC", -(1 / 2))] := by
      rw [List.filter_cons_of_pos (by simp only [hnegfalse]; decide)]
      rfl
    unfold process_and_validate_year
    rw [hstart]
    simp only [List.foldl_cons, List.foldl_nil, happ1, happ2, hkeep]
    refine ⟨?_, ?_, ?_⟩
    · rw [alGet_cons_self]
    · trivial
    · rfl

/-- C1 witness: the insufficient-funds case of the outflow step at a
concrete state (0.5 BTC available, 1 BTC debited) records the problem
entry and still applies the debit. -/
theorem C1_balance_replay_witness :
    (applyDelta w10C1 ⟨[("BTC", 1 / 2)], []⟩ ⟨"BTC", 1, true, "outflow"⟩).problems =
      [] ++ [⟨w10C1.row_num, "BTC", 1, alGetD [("BTC", (1 : ℚ) / 2)] "BTC",
        1 - alGetD [("BTC", (1 : ℚ) / 2)] "BTC", w10C1.type, "outflow"⟩] ∧
    alGetD (applyDelta w10C1 ⟨[("BTC", 1 / 2)], []⟩
        ⟨"BTC", 1, true, "outflow"⟩).balances "BTC" =
      alGetD [("BTC", (1 : ℚ) / 2)] "BTC" - 1 :=
  (C1_balance_replay.1 w10C1 ⟨[("BTC", 1 / 2)], []⟩ ⟨"BTC", 1, true, "outflow"⟩ rfl).1
    (by rw [alGetD, alGet_cons_self]; norm_num)

/-! ## The C2 swap-group scenario -/

theorem swapCategorize_exC2 :
    swapCategorize exSwapGroupC2.transactions =
      ⟨[("DFI", 3279 / 100)], [("ETH", 191 / 1000)], [("ETH", 96 / 100000)], none⟩ := by
  have habs1 : |(-(191 / 1000) : ℚ)| = 191 / 1000 := by
    rw [abs_neg]
    exact abs_of_pos (by norm_num)
  have habs2 : |(-(96 / 100000) : ℚ)| = 96 / 100000 := by
    rw [abs_neg]
    exact abs_of_pos (by norm_num)
  have hsA : ("Withdrew for swap" = "Paid swap fee") = False := eq_false (by decide)
  have hsB : ("Deposit" = "Paid swap fee") = False := eq_false (by decide)
  have hltA : ((-(191 / 1000) : ℚ) < 0) = True := eq_true (by norm_num)
  have hltB : ((3279 / 100 : ℚ) < 0) = False := eq_false (by norm_num)
  have hgtB : ((3279 / 100 : ℚ) > 0) = True := eq_true (by norm_num)
  have hcv1 : (containsStr "Withdrew for swap" "Converted" = true) = False :=
    eq_false (by decide)
  have hcv2 : (containsStr "Paid swap fee" "Converted" = true) = False :=
    eq_false (by decide)
  have hcv3 : (containsStr "Deposit" "Converted" = true) = False :=
    eq_false (by decide)
  have s1 : swapStep ⟨[], [], [], none⟩ tx1C2 =
      ⟨[], [("ETH", |(-(191 / 1000) : ℚ)|)], [], none⟩ := by
    simp only [swapStep, tx1C2, hsA, hltA, hcv1, if_true, if_false, alAdd]
  have s2 : swapStep ⟨[], [("ETH", |(-(191 / 1000) : ℚ)|)], [], none⟩ tx2C2 =
      ⟨[], [("ETH", |(-(191 / 1000) : ℚ)|)], [("ETH", |(-(96 / 100000) : ℚ)|)],
       none⟩ := by
    simp only [swapStep, tx2C2, hcv2, eq_self_iff_true, if_true, if_false, alAdd]
  have s3 : swapStep ⟨[], [("ETH", |(-(191 / 1000) : ℚ)|)],
      [("ETH", |(-(96 / 100000) : ℚ)|)], none⟩ tx3C2 =
      ⟨[("DFI", 3279 / 100)], [("ETH", |(-(191 / 1000) : ℚ)|)],
       [("ETH", |(-(96 / 100000) : ℚ)|)], none⟩ := by
    simp only [swapStep, tx3C2, hsB, hltB, hgtB, hcv3, if_true, if_false, alAdd]
  show List.foldl swapStep ⟨[], [], [], none⟩ [tx1C2, tx2C2, tx3C2] = _
  rw [List.foldl_cons, s1, List.foldl_cons, s2, List.foldl_cons, s3, List.foldl_nil]
  rw [habs1, habs2]

theorem netFlows_exC2 :
    netFlows ⟨[("DFI", 3279 / 100)], [("ETH", 191 / 1000)],
      [("ETH", 96 / 100000)], none⟩ =
      ⟨[("DFI", 3279 / 100)], [("ETH", 191 / 1000)], [("ETH", 96 / 100000)], none⟩ := by
  unfold netFlows
  simp only [List.map_cons, List.map_nil, List.foldl_cons, List.foldl_nil]
  rw [if_neg (by decide)]

/-- C2: whenever a swap group's netted flows resolve to exactly one
net-incoming currency and at least one net-outgoing currency, the
converter emits exactly one disposal-trade ("Handel") transaction
whose incoming side is the sole net-in currency and amount, outgoing
side is the first net-out currency and amount, and fee slot is the
first netted fee entry when one is present (`none` otherwise); in the
concrete three-event scenario the result is one trade with incoming
32.79 DFI, outgoing 0.191 ETH, fee 0.00096 ETH. -/
theorem C2_swap_group_conversion :
    (∀ (rates : RateTable) (group : TransactionGroup)
        (ci : String) (ai : ℚ) (co : String) (ao : ℚ)
        (outRest : List (String × ℚ)),
      (netFlows (swapCategorize group.transactions)).incoming = [(ci, ai)] →
      (netFlows (swapCategorize group.transactions)).outgoing = (co, ao) :: outRest →
      convert_swap_group rates group =
        some [⟨some group.timestamp, "Handel", some ai, some ci, some ao, some co,
          ((netFlows (swapCategorize group.transactions)).fees.head?.map
            (fun e => e.2)),
          ((netFlows (swapCategorize group.transactions)).fees.head?.map
            (fun e => e.1)),
          some "CakeDeFi", some (Note.swapFromTxs group.transactions.length),
          none⟩]) ∧
    (∀ rates : RateTable,
      convert_swap_group rates exSwapGroupC2 =
        some [⟨some exSwapGroupC2.timestamp, "Handel", some (3279 / 100), some "DFI",
          some (191 / 1000), some "ETH", some (96 / 100000), some "ETH",
          some "CakeDeFi", some (Note.swapFromTxs 3), none⟩]) := by
  have general : ∀ (rates : RateTable) (group : TransactionGroup)
      (ci : String) (ai : ℚ) (co : String) (ao : ℚ)
      (outRest : List (String × ℚ)),
      (netFlows (swapCategorize group.transactions)).incoming = [(ci, ai)] →
      (netFlows (swapCategorize group.transactions)).outgoing = (co, ao) :: outRest →
      convert_swap_group rates group =
        some [⟨some group.timestamp, "Handel", some ai, some ci, some ao, some co,
          ((netFlows (swapCategorize group.transactions)).fees.head?.map
            (fun e => e.2)),
          ((netFlows (swapCategorize group.transactions)).fees.head?.map
            (fun e => e.1)),
          some "CakeDeFi", some (Note.swapFromTxs group.transactions.length),
          none⟩] := by
    intro rates group ci ai co ao outRest hin hout
    unfold convert_swap_group
    simp only [hin, hout]
  constructor
  · exact general
  · intro rates
    have hin : (netFlows (swapCategorize exSwapGroupC2.transactions)).incoming =
        [("DFI", 3279 / 100)] := by
      rw [swapCategorize_exC2, netFlows_exC2]
    have hout : (netFlows (swapCategorize exSwapGroupC2.transactions)).outgoing =
        ("ETH", 191 / 1000) :: [] := by
      rw [swapCategorize_exC2, netFlows_exC2]
    have := general rates exSwapGroupC2 "DFI" (3279 / 100) "ETH" (191 / 1000) [] hin hout
    rw [this, swapCategorize_exC2, netFlows_exC2]
    rfl

/-- C2 witness: the general net-flow theorem applied to the concrete
scenario group discharges its hypotheses by computation. -/
theorem C2_swap_group_conversion_witness :
    convert_swap_group (fun _ => none) exSwapGroupC2 =
      some [⟨some exSwapGroupC2.timestamp, "Handel",
        some (3279 / 100), some "DFI", some (191 / 1000), some "ETH",
        ((netFlows (swapCategorize exSwapGroupC2.transactions)).fees.head?.map
          (fun e => e.2)),
        ((netFlows (swapCategorize exSwapGroupC2.transactions)).fees.head?.map
          (fun e => e.1)),
        some "CakeDeFi", some (Note.swapFromTxs exSwapGroupC2.transactions.length),
        none⟩] :=
  C2_swap_group_conversion.1 (fun _ => none) exSwapGroupC2 "DFI" (3279 / 100)
    "ETH" (191 / 1000) []
    (by rw [swapCategorize_exC2, netFlows_exC2])
    (by rw [swapCategorize_exC2, netFlows_exC2])

/-! ## C4: aggregated-rewards conversion -/

/-- C4 counterexample: on a rewards group whose member amounts sum to
`-3`, the emitted income amount is `3` (the absolute value), not the
exact sum `-3` — so the claim's "amount equals the exact sum of all
member amounts" fails as stated. -/
theorem C4_rewards_amount_counterexample :
    ((convert_daily_rewards_group (fun _ => none) exRewardsNegC4).map
      (fun l => l.map (fun t => t.inn))) = some [some 3] ∧
    (exRewardsNegC4.transactions.map (fun t => t.amount)).sum = -3 ∧
    ¬ ((convert_daily_rewards_group (fun _ => none) exRewardsNegC4).map
        (fun l => l.map (fun t => t.inn))) =
      some [some ((exRewardsNegC4.transactions.map (fun t => t.amount)).sum)] := by
  have hsum : ((exRewardsNegC4.transactions.map (fun t => t.amount)).sum : ℚ) = -3 := by
    show ((-1 : ℚ) + ((-2) + 0)) = -3
    norm_num
  have habs : |((exRewardsNegC4.transactions.map (fun t => t.amount)).sum : ℚ)| = 3 := by
    rw [hsum]
    rw [abs_of_neg (by norm_num)]
    norm_num
  refine ⟨?_, hsum, ?_⟩
  · show some [some |((exRewardsNegC4.transactions.map (fun t => t.amount)).sum : ℚ)|] =
      some [some 3]
    rw [habs]
  · intro h
    have h2 : some [some |((exRewardsNegC4.transactions.map
        (fun t => t.amount)).sum : ℚ)|] =
        some [some ((exRewardsNegC4.transactions.map (fun t => t.amount)).sum : ℚ)] := h
    rw [habs, hsum] at h2
    simp only [Option.some.injEq, List.cons.injEq] at h2
    have h3 : (3 : ℚ) = -3 := by
      have := h2.1
      simpa using this
    norm_num at h3

/-- C4 (amended): on every nonempty aggregated-rewards group the
converter emits exactly one income transaction whose amount is the
absolute value of the exact (lossless) sum of member amounts — equal
to the exact sum whenever the member amounts are nonnegative — and
whose NOK annotation is the sum over members of each member's own
absolute fiat value converted at that member's timestamp and quantized
to 2 fractional digits per member before summing. -/
theorem C4_rewards_aggregation :
    (∀ (rates : RateTable) (g : TransactionGroup) (template : CakeTransaction)
        (rest : List CakeTransaction),
      g.transactions = template :: rest →
      convert_daily_rewards_group rates g =
        some [⟨some g.timestamp, KryptosekkenTransactionType.INNTEKT.value,
          some |(g.transactions.map (fun tx => tx.amount)).sum|,
          some template.coin_asset, none, none, none, none, some "CakeDeFi",
          some (Note.rewards
            (if template.coin_asset = "ETH" then "Weekly" else "Daily")
            template.coin_asset g.transactions.length
            ((g.transactions.map
              (fun tx => convert_usd_to_nok rates |tx.fiat_value| tx.date)).sum)),
          none⟩]) ∧
    (∀ (g : TransactionGroup),
      (∀ tx ∈ g.transactions, (0 : ℚ) ≤ tx.amount) →
      |(g.transactions.map (fun tx => tx.amount)).sum| =
        (g.transactions.map (fun tx => tx.amount)).sum) := by
  constructor
  · intro rates g template rest hg
    unfold convert_daily_rewards_group
    rw [hg]
  · intro g hpos
    apply abs_of_nonneg
    apply List.sum_nonneg
    intro x hx
    rcases List.mem_map.mp hx with ⟨tx, htx, rfl⟩
    exact hpos tx htx

/-- C4 witness: the amended theorem applied to a concrete positive
two-member group; the emitted amount equals the exact sum. -/
theorem C4_rewards_aggregation_witness :
    convert_daily_rewards_group (fun _ => none) exRewardsPosC4 =
      some [⟨some exRewardsPosC4.timestamp, KryptosekkenTransactionType.INNTEKT.value,
        some |(exRewardsPosC4.transactions.map (fun tx => tx.amount)).sum|,
        some "DFI", none, none, none, none, some "CakeDeFi",
        some (Note.rewards "Daily" "DFI" exRewardsPosC4.transactions.length
          ((exRewardsPosC4.transactions.map
            (fun tx => convert_usd_to_nok (fun _ => none) |tx.fiat_value| tx.date)).sum)),
        none⟩] ∧
    |(exRewardsPosC4.transactions.map (fun tx => tx.amount)).sum| =
      (exRewardsPosC4.transactions.map (fun tx => tx.amount)).sum := by
  constructor
  · exact C4_rewards_aggregation.1 (fun _ => none) exRewardsPosC4
      ⟨⟨0, none⟩, "Staking reward", 1 / 2, "DFI", 0, "USD", none, none, none, none, 0⟩
      [⟨⟨10, none⟩, "Staking reward", 1 / 4, "DFI", 0, "USD", none, none, none, none, 1⟩]
      rfl
  · apply C4_rewards_aggregation.2 exRewardsPosC4
    intro tx htx
    have : tx = (⟨⟨0, none⟩, "Staking reward", 1 / 2, "DFI", 0, "USD",
        none, none, none, none, 0⟩ : CakeTransaction) ∨
        tx = (⟨⟨10, none⟩, "Staking reward", 1 / 4, "DFI", 0, "USD",
        none, none, none, none, 1⟩ : CakeTransaction) := by
      simpa [exRewardsPosC4] using htx
    rcases this with rfl | rfl
    · norm_num
    · norm_num

/-! ## C8: the at-least-one-side invariant -/

/-- C8 failing input: converting a zero-amount "Deposit" singleton
emits one canonical transaction with `inn = none` and `ut = none` —
neither side present — contradicting the data-model invariant the
repository's own validator enforces (`_validate_structure_and_fields`
reports "Transaction must have an 'Inn' or 'Ut' amount" as an error). -/
theorem C8_zero_amount_deposit_has_no_side :
    ((convert_single_transaction (fun _ => none) exZeroDepositC8).map
      (fun l => l.map (fun t => (t.inn, t.ut)))) = some [(none, none)] ∧
    ((convert_group_to_kryptosekken (fun _ => none)
        ⟨[exZeroDepositC8], "single", none⟩).map
      (fun l => l.map (fun t => (t.inn, t.ut)))) = some [(none, none)] := by
  constructor
  · decide
  · decide

/-! ## C10: reward aggregation needs at least two events -/

theorem alGet_alAppend_self {K V : Type} [DecidableEq K] (k : K) (v : V) :
    ∀ (m : List (K × List V)),
      alGet (alAppend m k v) k = some ((alGet m k).getD [] ++ [v]) := by
  intro m
  induction m with
  | nil =>
      show alGet [(k, [v])] k = _
      rw [alGet_cons_self]
      rfl
  | cons e rest ih =>
      obtain ⟨k1, vs⟩ := e
      by_cases hk : k1 = k
      · subst hk
        show alGet (if k1 = k1 then (k1, vs ++ [v]) :: rest else _) k1 = _
        rw [if_pos rfl, alGet_cons_self, alGet_cons_self]
        rfl
      · show alGet (if k1 = k then _ else (k1, vs) :: alAppend rest k v) k = _
        rw [if_neg hk, alGet_cons_ne hk, alGet_cons_ne hk]
        exact ih

theorem alGet_alAppend_ne {K V : Type} [DecidableEq K] {k k2 : K} (hk : ¬ k = k2)
    (v : V) : ∀ (m : List (K × List V)),
      alGet (alAppend m k v) k2 = alGet m k2 := by
  intro m
  induction m with
  | nil =>
      show alGet [(k, [v])] k2 = alGet [] k2
      rw [alGet_cons_ne hk]
  | cons e rest ih =>
      obtain ⟨k1, vs⟩ := e
      by_cases hk1 : k1 = k
      · subst hk1
        show alGet (if k1 = k1 then (k1, vs ++ [v]) :: rest else _) k2 = _
        rw [if_pos rfl, alGet_cons_ne hk, alGet_cons_ne hk]
      · show alGet (if k1 = k then _ else (k1, vs) :: alAppend rest k v) k2 = _
        rw [if_neg hk1]
        by_cases hk2 : k1 = k2
        · subst hk2
          rw [alGet_cons_self, alGet_cons_self]
        · rw [alGet_cons_ne hk2, alGet_cons_ne hk2]
          exact ih

theorem alAppend_cons_self {K V : Type} [DecidableEq K] (k : K) (vs : List V)
    (rest : List (K × List V)) (v : V) :
    alAppend ((k, vs) :: rest) k v = (k, vs ++ [v]) :: rest := by
  simp only [alAppend, if_true]

theorem alAppend_cons_ne {K V : Type} [DecidableEq K] {k1 k : K} (hk : ¬ k1 = k)
    (vs : List V) (rest : List (K × List V)) (v : V) :
    alAppend ((k1, vs) :: rest) k v = (k1, vs) :: alAppend rest k v := by
  simp only [alAppend]
  rw [if_neg hk]

theorem mem_keys_alAppend {K V : Type} [DecidableEq K] {x k : K} {v : V} :
    ∀ {m : List (K × List V)},
      x ∈ (alAppend m k v).map Prod.fst → x ∈ m.map Prod.fst ∨ x = k := by
  intro m
  induction m with
  | nil =>
      intro h
      simp only [alAppend, List.map_cons, List.map_nil, List.mem_singleton] at h
      exact Or.inr h
  | cons e rest ih =>
      obtain ⟨k1, vs⟩ := e
      by_cases hk : k1 = k
      · intro h
        rw [hk, alAppend_cons_self] at h
        simp only [List.map_cons, List.mem_cons] at h
        rcases h with h | h
        · exact Or.inr (h.trans hk.symm ▸ h)
        · exact Or.inl (List.mem_cons_of_mem _ h)
      · intro h
        rw [alAppend_cons_ne hk] at h
        simp only [List.map_cons, List.mem_cons] at h
        rcases h with h | h
        · exact Or.inl (h ▸ List.mem_cons_self _ _)
        · rcases ih h with h2 | h2
          · exact Or.inl (List.mem_cons_of_mem _ h2)
          · exact Or.inr h2

theorem keys_nodup_alAppend {K V : Type} [DecidableEq K] {k : K} {v : V} :
    ∀ {m : List (K × List V)},
      (m.map Prod.fst).Nodup → ((alAppend m k v).map Prod.fst).Nodup := by
  intro m
  induction m with
  | nil => intro _; simp [alAppend]
  | cons e rest ih =>
      obtain ⟨k1, vs⟩ := e
      intro hnd
      rw [List.map_cons, List.nodup_cons] at hnd
      by_cases hk : k1 = k
      · rw [hk, alAppend_cons_self, List.map_cons, List.nodup_cons]
        rw [hk] at hnd
        exact hnd
      · rw [alAppend_cons_ne hk, List.map_cons, List.nodup_cons]
        refine ⟨?_, ih hnd.2⟩
        intro habs
        rcases mem_keys_alAppend habs with h | h
        · exact hnd.1 h
        · exact hk h

theorem alGet_of_mem_nodup {K V : Type} [DecidableEq K] {k : K} {l : V} :
    ∀ {m : List (K × V)}, (m.map Prod.fst).Nodup → (k, l) ∈ m →
      alGet m k = some l := by
  intro m
  induction m with
  | nil => intro _ h; simp at h
  | cons e rest ih =>
      obtain ⟨k1, v1⟩ := e
      intro hnd hmem
      rw [List.map_cons, List.nodup_cons] at hnd
      rcases List.mem_cons.mp hmem with h | h
      · have hk1 : k = k1 := congrArg Prod.fst h
        have hv1 : l = v1 := congrArg Prod.snd h
        subst hk1
        subst hv1
        exact alGet_cons_self _ _ _
      · by_cases hk : k1 = k
        · exfalso
          apply hnd.1
          subst hk
          simpa using List.mem_map_of_mem Prod.fst h
        · rw [alGet_cons_ne hk]
          exact ih hnd.2 h

theorem foldl_dailyRewardsStep_alGet (k : Int × String) :
    ∀ (txs : List CakeTransaction)
      (m : List ((Int × String) × List CakeTransaction)),
      (alGet (txs.foldl dailyRewardsStep m) k).getD [] =
        (alGet m k).getD [] ++ txs.filter (incomeKeyed k) := by
  intro txs
  induction txs with
  | nil => intro m; simp
  | cons t ts ih =>
      intro m
      rw [List.foldl_cons]
      by_cases hinc : is_income_operation t.operation (some t.amount) = true
      · by_cases hkey : (t.date.day, t.coin_asset) = k
        · have hstep : dailyRewardsStep m t = alAppend m k t := by
            unfold dailyRewardsStep
            rw [if_pos hinc, hkey]
          rw [hstep, ih (alAppend m k t), alGet_alAppend_self,
            List.filter_cons_of_pos (by
              unfold incomeKeyed
              rw [hinc]
              simp [hkey])]
          simp only [Option.getD_some]
          rw [List.append_assoc]
          rfl
        · have hstep : dailyRewardsStep m t = alAppend m (t.date.day, t.coin_asset) t := by
            unfold dailyRewardsStep
            rw [if_pos hinc]
          rw [hstep, ih, alGet_alAppend_ne hkey,
            List.filter_cons_of_neg (by
              unfold incomeKeyed
              simp [hkey])]
      · have hstep : dailyRewardsStep m t = m := by
          unfold dailyRewardsStep
          rw [if_neg hinc]
        rw [hstep, ih,
          List.filter_cons_of_neg (by
            unfold incomeKeyed
            simp [hinc])]

theorem keys_nodup_foldl_daily :
    ∀ (txs : List CakeTransaction)
      (m : List ((Int × String) × List CakeTransaction)),
      (m.map Prod.fst).Nodup →
      ((txs.foldl dailyRewardsStep m).map Prod.fst).Nodup := by
  intro txs
  induction txs with
  | nil => intro m h; exact h
  | cons t ts ih =>
      intro m hnd
      rw [List.foldl_cons]
      apply ih
      unfold dailyRewardsStep
      by_cases hinc : is_income_operation t.operation (some t.amount) = true
      · rw [if_pos hinc]
        exact keys_nodup_alAppend hnd
      · rw [if_neg hinc]
        exact hnd

theorem daily_bucket_eq (singles : List CakeTransaction) :
    ∀ kv ∈ singles.foldl dailyRewardsStep [],
      kv.2 = singles.filter (incomeKeyed kv.1) := by
  intro kv hkv
  have hnd : ((singles.foldl dailyRewardsStep
      ([] : List ((Int × String) × List CakeTransaction))).map Prod.fst).Nodup :=
    keys_nodup_foldl_daily singles [] (by simp)
  have hget := alGet_of_mem_nodup hnd (show (kv.1, kv.2) ∈ _ from hkv)
  have h2 := foldl_dailyRewardsStep_alGet kv.1 singles []
  rw [hget] at h2
  simpa using h2

theorem daily_no_singleton (singles : List CakeTransaction) (tx : CakeTransaction)
    (hcount : (singles.filter
      (incomeKeyed (tx.date.day, tx.coin_asset))).length = 1) :
    ∀ g2 ∈ ((singles.foldl dailyRewardsStep []).filter
        (fun kv => kv.2.length > 1)).map
        (fun kv => (⟨sortTxsByDate kv.2, "daily_rewards", none⟩ : TransactionGroup)),
      tx ∉ g2.transactions := by
  intro g2 hg2 habs
  rcases List.mem_map.mp hg2 with ⟨kv, hkv, rfl⟩
  have hlen : kv.2.length > 1 := by
    have := (List.mem_filter.mp hkv).2
    simpa using this
  have hkv2 : kv ∈ singles.foldl dailyRewardsStep [] := List.mem_of_mem_filter hkv
  have hbucket := daily_bucket_eq singles kv hkv2
  have htx2 : tx ∈ kv.2 := mem_sortTxsByDate.mp habs
  rw [hbucket] at htx2
  have hik : incomeKeyed kv.1 tx = true := by
    have := (List.mem_filter.mp htx2).2
    simpa using this
  have hkey : (tx.date.day, tx.coin_asset) = kv.1 := by
    unfold incomeKeyed at hik
    rw [Bool.and_eq_true] at hik
    exact of_decide_eq_true hik.2
  rw [hbucket, ← hkey, hcount] at hlen
  omega

theorem daily_group_min_two (singles : List CakeTransaction) :
    ∀ g ∈ ((singles.foldl dailyRewardsStep []).filter
        (fun kv => kv.2.length > 1)).map
        (fun kv => (⟨sortTxsByDate kv.2, "daily_rewards", none⟩ : TransactionGroup)),
      2 ≤ g.transactions.length := by
  intro g hg
  rcases List.mem_map.mp hg with ⟨kv, hkv, rfl⟩
  have hlen : kv.2.length > 1 := by
    simpa using (List.mem_filter.mp hkv).2
  have hperm : (sortTxsByDate kv.2).length = kv.2.length :=
    (List.perm_insertionSort _ kv.2).length_eq
  show 2 ≤ (sortTxsByDate kv.2).length
  omega

theorem weekly_group_min_two (gs : List TransactionGroup) :
    ∀ g ∈ aggregate_eth_daily_to_weekly gs, 2 ≤ g.transactions.length := by
  intro g hg
  unfold aggregate_eth_daily_to_weekly at hg
  rcases List.mem_map.mp hg with ⟨kv, hkv, rfl⟩
  have hlen : kv.2.length > 1 := by
    simpa using (List.mem_filter.mp hkv).2
  have hperm : (sortTxsByDate kv.2).length = kv.2.length :=
    (List.perm_insertionSort _ kv.2).length_eq
  show 2 ≤ (sortTxsByDate kv.2).length
  omega

/-- C10: reward aggregation only ever forms groups of two or more
events: every group produced by the daily-rewards grouping (daily or
weekly) has at least two members; weekly ETH aggregation likewise only
keeps pools of at least two; and a standalone event that is the only
income event for its (calendar day, currency) joins no reward group
and is emitted as a singleton group. -/
theorem C10_reward_groups_need_two :
    (∀ (singles : List CakeTransaction) (g : TransactionGroup),
        g ∈ group_daily_rewards singles → 2 ≤ g.transactions.length) ∧
    (∀ (gs : List TransactionGroup) (g : TransactionGroup),
        g ∈ aggregate_eth_daily_to_weekly gs → 2 ≤ g.transactions.length) ∧
    (∀ (singles : List CakeTransaction) (tx : CakeTransaction),
        tx ∈ singles →
        (singles.filter (incomeKeyed (tx.date.day, tx.coin_asset))).length = 1 →
        (∀ g ∈ group_daily_rewards singles, tx ∉ g.transactions) ∧
        TransactionGroup.mk [tx] "single" none ∈
          singletonGroups singles (group_daily_rewards singles)) := by
  have hmain : ∀ (singles : List CakeTransaction) (g : TransactionGroup),
      g ∈ group_daily_rewards singles → 2 ≤ g.transactions.length := by
    intro singles g hg
    unfold group_daily_rewards at hg
    by_cases heth : (((singles.foldl dailyRewardsStep []).filter
        (fun kv => kv.2.length > 1)).map
        (fun kv => (⟨sortTxsByDate kv.2, "daily_rewards", none⟩ : TransactionGroup))).filter
        (fun g => (g.transactions.head?.map (fun t => t.coin_asset)).getD "" = "ETH")
        |>.isEmpty
    · simp only [heth, if_pos] at hg
      exact daily_group_min_two singles g (List.mem_of_mem_filter hg)
    · simp only [heth, if_neg, Bool.false_eq_true, not_false_iff] at hg
      rcases List.mem_append.mp hg with h | h
      · exact daily_group_min_two singles g (List.mem_of_mem_filter h)
      · exact weekly_group_min_two _ g h
  have hnotin : ∀ (singles : List CakeTransaction) (tx : CakeTransaction),
      (singles.filter (incomeKeyed (tx.date.day, tx.coin_asset))).length = 1 →
      ∀ g ∈ group_daily_rewards singles, tx ∉ g.transactions := by
    intro singles tx hcount g hg habs
    unfold group_daily_rewards at hg
    by_cases heth : (((singles.foldl dailyRewardsStep []).filter
        (fun kv => kv.2.length > 1)).map
        (fun kv => (⟨sortTxsByDate kv.2, "daily_rewards", none⟩ : TransactionGroup))).filter
        (fun g => (g.transactions.head?.map (fun t => t.coin_asset)).getD "" = "ETH")
        |>.isEmpty
    · simp only [heth, if_pos] at hg
      exact daily_no_singleton singles tx hcount g
        (List.mem_of_mem_filter hg) habs
    · simp only [heth, if_neg, Bool.false_eq_true, not_false_iff] at hg
      rcases List.mem_append.mp hg with h | h
      · exact daily_no_singleton singles tx hcount g
          (List.mem_of_mem_filter h) habs
      · rcases aggregate_eth_daily_to_weekly_mem h habs with ⟨g2, hg2, htx2⟩
        exact daily_no_singleton singles tx hcount g2
          (List.mem_of_mem_filter hg2) htx2
  refine ⟨hmain, fun gs => weekly_group_min_two gs, ?_⟩
  intro singles tx htx hcount
  refine ⟨hnotin singles tx hcount, ?_⟩
  unfold singletonGroups
  apply List.mem_map.mpr
  refine ⟨tx, ?_, rfl⟩
  apply List.mem_filter.mpr
  refine ⟨htx, ?_⟩
  rw [decide_eq_true_iff]
  intro habs
  rcases List.mem_flatMap.mp habs with ⟨g2, hg2, htx2⟩
  exact hnotin singles tx hcount g2 hg2 htx2

/-- C10 witness: with two standalone income events in different
currencies, each key has exactly one event, so the DFI event joins no
reward group and is emitted as a singleton. -/
theorem C10_reward_groups_need_two_witness :
    (∀ g ∈ group_daily_rewards [exIncomeDfiC10, exIncomeBtcC10],
        exIncomeDfiC10 ∉ g.transactions) ∧
    TransactionGroup.mk [exIncomeDfiC10] "single" none ∈
      singletonGroups [exIncomeDfiC10, exIncomeBtcC10]
        (group_daily_rewards [exIncomeDfiC10, exIncomeBtcC10]) :=
  C10_reward_groups_need_two.2.2 [exIncomeDfiC10, exIncomeBtcC10] exIncomeDfiC10
    (by decide) (by decide)

/-! ## C3: final ordering of the grouper -/

/-- C3 counterexample: the grouper's output for `exC3txs` is not
sorted by the key the claim describes — the priority function's
`"liquidity"` branch never fires (the grouper labels liquidity groups
`"add_liquidity"`/`"remove_liquidity"`), so the add-liquidity group
ranks with "everything else" and the same-timestamp withdrawal with
the smaller original position precedes it, where the claimed key
demands the liquidity group first. -/
theorem C3_spec_ordering_counterexample :
    ¬ ((group_transactions exC3txs).Pairwise
        (fun g1 g2 => specGroupSortKey g1 ≤ specGroupSortKey g2)) ∧
    (group_transactions exC3txs).map (fun g => g.group_type) =
      ["single", "add_liquidity"] := by
  constructor
  · decide
  · decide

/-- C3 (amended): the grouper's final output is sorted by the
lexicographic key (normalized timestamp, economic priority, original
input position of the group's first member), where the economic
priority places income groups first, swap groups second, and
everything else — including liquidity groups, since the grouper labels
them `"add_liquidity"`/`"remove_liquidity"` and the priority check
tests for the never-assigned label `"liquidity"` — last; and the
output is a pure function of the input (same input, same order). -/
theorem C3_final_ordering :
    (∀ txs : List CakeTransaction,
      (group_transactions txs).Pairwise
        (fun g1 g2 => groupSortKey g1 ≤ groupSortKey g2)) ∧
    (∀ txs1 txs2 : List CakeTransaction,
      txs1 = txs2 → group_transactions txs1 = group_transactions txs2) := by
  constructor
  · intro txs
    unfold group_transactions
    haveI : IsTotal TransactionGroup
        (fun g1 g2 => groupSortKey g1 ≤ groupSortKey g2) :=
      ⟨fun a b => le_total _ _⟩
    haveI : IsTrans TransactionGroup
        (fun g1 g2 => groupSortKey g1 ≤ groupSortKey g2) :=
      ⟨fun a b c hab hbc => le_trans hab hbc⟩
    exact List.sorted_insertionSort _ (preSortGroups txs)
  · intro txs1 txs2 h
    rw [h]

/-- C3 witness: the amended ordering theorem applied to the concrete
counterexample input. -/
theorem C3_final_ordering_witness :
    (group_transactions exC3txs).Pairwise
      (fun g1 g2 => groupSortKey g1 ≤ groupSortKey g2) ∧
    group_transactions exC3txs = group_transactions exC3txs :=
  ⟨C3_final_ordering.1 exC3txs, C3_final_ordering.2 exC3txs exC3txs rfl⟩
